import Mathlib

/-!
Verification of the picoagent agent runtime: a shallow embedding of the
core agent loop (src/core/loop.ts), the hook framework and its composer
(src/core/hooks.ts), the worker-control hooks, the markdown frontmatter
scanner and task persistence layer, the conversation-compaction adapter,
the worker driver (src/runtime/worker.ts) and the write_file tool.

JavaScript strings are embedded as lists of characters (`Str`); machine
numbers that stay within integer ranges are embedded as `Nat`/`Int`; the
floating-point ratios of the compaction configuration are embedded as
rationals (exact for the defaults 0.75/0.25 and every concrete input used
here); JS exceptions are embedded as an explicit error type threaded in
an `Except`; in-place mutation of the message array becomes explicit
state passing.
-/

/-- A JavaScript string, embedded as its sequence of characters. -/
abbrev Str := List Char

/-- Abbreviation used throughout: the characters of a Lean string literal. -/
def lit (s : String) : Str := s.data

/-- JS `Error` values thrown in the runtime.  `AbortError` (hooks.ts)
extends `Error` with the task id; `error` covers `new Error(msg)`. -/
inductive Err where
  | error (msg : Str)
  | abortError (taskId : Str)
deriving DecidableEq, Repr

/-- The `message` property of a JS `Error`.  `AbortError`'s constructor
sets it to "Task (id) was aborted". -/
def Err.message : Err → Str
  | .error m => m
  | .abortError taskId => lit "Task " ++ taskId ++ lit " was aborted"

/-- Tool-call arguments (`Record<string, unknown>` in types.ts), embedded as
an association list of string keys to string values — sufficient for every
use the core makes of them (the `path` extraction of the compaction adapter
and the serialized length of the token estimator). -/
abbrev Args := List (Str × Str)

/-- A tool-call content block (types.ts `ToolCall`). -/
structure ToolCall where
  id : Str
  name : Str
  arguments : Args
deriving DecidableEq, Repr

/-- A block of an assistant message (types.ts `TextContent | ToolCall`). -/
inductive ContentBlock where
  | text (text : Str)
  | toolCall (tc : ToolCall)
deriving DecidableEq, Repr

/-- types.ts `AssistantMessage` (role "assistant"). -/
structure AssistantMessage where
  content : List ContentBlock
deriving DecidableEq, Repr

/-- types.ts `ToolResultMessage` (role "toolResult"). -/
structure ToolResultMessage where
  toolCallId : Str
  content : Str
  isError : Bool
deriving DecidableEq, Repr

/-- types.ts `Message`: user, assistant or tool-result. -/
inductive Message where
  | user (content : Str)
  | assistant (m : AssistantMessage)
  | toolResult (r : ToolResultMessage)
deriving DecidableEq, Repr

/-- types.ts `ToolResult` returned by a tool's execute (isError defaults
to false; the loop normalises it with `|| false`). -/
structure ToolResult where
  content : Str
  isError : Bool
deriving DecidableEq, Repr

/-- types.ts `ToolContext`.  The three runtime callbacks are effects the
embedded claims never observe and are elided. -/
structure ToolContext where
  cwd : Str
  tasksRoot : Str
  writeRoot : Option Str
deriving DecidableEq, Repr

/-- types.ts `Tool`: name, a Zod schema (embedded as its validation
function, returning the issue list `(path, message)` on failure) and the
execute function (which may throw, hence `Except`). -/
structure Tool where
  name : Str
  validate : Args → Except (List (Str × Str)) Args
  execute : Args → ToolContext → Except Err ToolResult

/-! ## Output truncation (loop.ts `truncateOutput`) -/

/-- The decimal rendering of a natural number (JS template `${n}`). -/
def natStr (n : Nat) : Str := Nat.toDigits 10 n

/-- The truncation marker inserted by `truncateOutput` for an original
length of `30000 + n`. -/
def truncMarker (n : Nat) : Str :=
  lit "\n... [" ++ natStr n ++ lit " chars truncated] ...\n"

/-- loop.ts `truncateOutput`: contents over 32,000 characters are replaced
by their first 24,000 characters, a marker, and their last 6,000. -/
def truncateOutput (content : Str) : Str :=
  if content.length > 32000 then
    content.take 24000 ++ truncMarker (content.length - 30000) ++
      content.drop (content.length - 6000)
  else content

/-! ## Tool execution (loop.ts `executeTool`) -/

/-- loop.ts `executeTool` lines 36–54: resolve the tool, validate the
arguments, run it, catching validation errors and thrown exceptions; the
pre-truncation result content and error flag. -/
def executeToolRaw (toolCall : ToolCall) (tools : List Tool) (context : ToolContext) :
    Str × Bool :=
  match tools.find? (fun t => t.name == toolCall.name) with
  | none => (lit "Tool not found", true)
  | some tool =>
    match tool.validate toolCall.arguments with
    | .error issues =>
      (lit "Invalid arguments: " ++
        List.intercalate (lit ", ") (issues.map (fun i => i.1 ++ lit ": " ++ i.2)), true)
    | .ok validatedArgs =>
      match tool.execute validatedArgs context with
      | .error e => (lit "Error: " ++ e.message, true)
      | .ok result => (result.content, result.isError)

/-- loop.ts `executeTool`: the tool-result message, with the content put
through `truncateOutput`. -/
def executeTool (toolCall : ToolCall) (tools : List Tool) (context : ToolContext) :
    ToolResultMessage :=
  let raw := executeToolRaw toolCall tools context
  { toolCallId := toolCall.id, content := truncateOutput raw.1, isError := raw.2 }

/-! ## The hook framework (hooks.ts)

A hook set over an ambient mutable state `σ` (the JS closures' shared
heap).  Each callback receives and returns the state; a callback that can
throw returns `Except Err`; state written before a throw persists (JS
semantics), hence the `σ ×` on the outside.  The `durationMs` arguments
carry wall-clock time and are elided. -/

structure AgentHooks (σ : Type) where
  onLoopStart : Option (σ → σ × Except Err Unit) := none
  onLoopEnd : Option (Nat → σ → σ × Except Err Unit) := none
  onLlmStart : Option (List Message → σ → σ × Except Err Unit) := none
  onLlmEnd : Option (AssistantMessage → σ → σ × Except Err Unit) := none
  onToolStart : Option (ToolCall → σ → σ × Except Err Unit) := none
  onToolEnd :
    Option (ToolCall → ToolResultMessage → σ → σ × Except Err (Option ToolResultMessage)) := none
  onTurnEnd : Option (List Message → σ → σ × Except Err (List Message)) := none
  onTextDelta : Option (Str → σ → σ) := none
  onError : Option (Err → σ → σ × Except Err Unit) := none

/-- `await hooks?.f?.()` for a nullary-payload hook. -/
def runHook0 {σ : Type} (h : Option (σ → σ × Except Err Unit)) (s : σ) :
    σ × Except Err Unit :=
  match h with
  | none => (s, .ok ())
  | some f => f s

/-- `await hooks?.f?.(a)` for a one-argument hook. -/
def runHook1 {σ α : Type} (h : Option (α → σ → σ × Except Err Unit)) (a : α) (s : σ) :
    σ × Except Err Unit :=
  match h with
  | none => (s, .ok ())
  | some f => f a s

/-! ### The hook composer (hooks.ts `combineHooks`) -/

/-- Sequential composition of handlers (the generic branch of
`combineHooks`): run each in order, stopping at the first throw. -/
def runSeq0 {σ : Type} : List (σ → σ × Except Err Unit) → σ → σ × Except Err Unit
  | [], s => (s, .ok ())
  | f :: fs, s =>
    match f s with
    | (s1, .ok ()) => runSeq0 fs s1
    | (s1, .error e) => (s1, .error e)

/-- Sequential composition of one-argument handlers. -/
def runSeq1 {σ α : Type} : List (α → σ → σ × Except Err Unit) → α → σ → σ × Except Err Unit
  | [], _, s => (s, .ok ())
  | f :: fs, a, s =>
    match f a s with
    | (s1, .ok ()) => runSeq1 fs a s1
    | (s1, .error e) => (s1, .error e)

/-- The `onToolEnd` branch of `combineHooks`: thread the current result
through the handlers, adopting each returned replacement, and return the
final current value. -/
def chainToolEnd {σ : Type} :
    List (ToolCall → ToolResultMessage → σ → σ × Except Err (Option ToolResultMessage)) →
    ToolCall → ToolResultMessage → σ → σ × Except Err (Option ToolResultMessage)
  | [], _, current, s => (s, .ok (some current))
  | f :: fs, call, current, s =>
    match f call current s with
    | (s1, .ok modified) => chainToolEnd fs call (modified.getD current) s1
    | (s1, .error e) => (s1, .error e)

/-- The `onTurnEnd` handlers all receive the same mutable array; in the
embedding each hands the mutated list to the next. -/
def chainTurnEnd {σ : Type} :
    List (List Message → σ → σ × Except Err (List Message)) →
    List Message → σ → σ × Except Err (List Message)
  | [], msgs, s => (s, .ok msgs)
  | f :: fs, msgs, s =>
    match f msgs s with
    | (s1, .ok msgs1) => chainTurnEnd fs msgs1 s1
    | (s1, .error e) => (s1, .error e)

/-- `some` iff the handler list is nonempty (`if handlers.length === 0 continue`). -/
def someIfNonempty {α β : Type} (handlers : List α) (mk : List α → β) : Option β :=
  match handlers with
  | [] => none
  | _ => some (mk handlers)

/-- hooks.ts `combineHooks`: fold several hook sets into one.  No set or a
single set short-circuit; otherwise every callback becomes the sequential
composition of the present component callbacks, with the result-threading
special case for `onToolEnd` and the synchronous loop for `onTextDelta`. -/
def combineHooks {σ : Type} (hookSets : List (Option (AgentHooks σ))) : AgentHooks σ :=
  let filtered := hookSets.filterMap id
  match filtered with
  | [] => {}
  | [h] => h
  | hs =>
    { onLoopStart := someIfNonempty (hs.filterMap (·.onLoopStart)) runSeq0
      onLoopEnd := someIfNonempty (hs.filterMap (·.onLoopEnd)) (fun fs n => runSeq1 fs n)
      onLlmStart := someIfNonempty (hs.filterMap (·.onLlmStart)) (fun fs m => runSeq1 fs m)
      onLlmEnd := someIfNonempty (hs.filterMap (·.onLlmEnd)) (fun fs m => runSeq1 fs m)
      onToolStart := someIfNonempty (hs.filterMap (·.onToolStart)) (fun fs c => runSeq1 fs c)
      onToolEnd := someIfNonempty (hs.filterMap (·.onToolEnd)) chainToolEnd
      onTurnEnd := someIfNonempty (hs.filterMap (·.onTurnEnd)) chainTurnEnd
      onTextDelta := someIfNonempty (hs.filterMap (·.onTextDelta))
        (fun fs text s => fs.foldl (fun acc f => f text acc) s)
      onError := someIfNonempty (hs.filterMap (·.onError)) (fun fs e => runSeq1 fs e) }

/-! ## The provider capability (core/provider.ts)

The loop passes the wire tool definitions and the system prompt through
unchanged and no claim observes them, so the embedded provider is a
function of the message list alone.  `stream` yields its whole event
sequence (the loop consumes it in order). -/

/-- A provider stream event.  `text_delta` and `done` are the kinds the
loop consumes; `other` stands for `tool_start`, `tool_delta` and `error`,
all ignored by the loop. -/
inductive StreamEvent where
  | textDelta (text : Str)
  | done (message : AssistantMessage)
  | other
deriving Repr

structure Provider where
  complete : List Message → Except Err AssistantMessage
  stream : List Message → Except Err (List StreamEvent)

/-! ## The agent loop (loop.ts `runAgentLoop`) -/

/-- Events observable in a loop run, in order: each provider request
(with the message list sent), each message appended to the history. -/
inductive LoopEvent where
  | llmComplete (messages : List Message)
  | llmStream (messages : List Message)
  | appendedAssistant (m : AssistantMessage)
  | appendedToolResult (r : ToolResultMessage)
deriving DecidableEq, Repr

/-- How a loop run ended: final assistant message, thrown error, or the
fuel of the embedding ran out (the source loop is `while (true)`). -/
inductive LoopOutcome where
  | ok (response : AssistantMessage)
  | err (e : Err)
  | outOfFuel
deriving DecidableEq, Repr

/-- The streaming consumption loop of loop.ts lines 88–94: route each
nonempty `text_delta` to the handler (the source guards on the truthiness
of `event.text`, so an empty fragment is skipped), remember the last
`done` message. -/
def processStream {σ : Type} (f : Str → σ → σ) :
    List StreamEvent → σ → Option AssistantMessage → σ × Option AssistantMessage
  | [], s, response => (s, response)
  | .textDelta t :: rest, s, response =>
    processStream f rest (if t.isEmpty then s else f t s) response
  | .done m :: rest, s, _ => processStream f rest s (some m)
  | .other :: rest, s, response => processStream f rest s response

/-- The per-turn LLM request of loop.ts lines 84–100: stream when any
`onTextDelta` handler is installed, otherwise the blocking call; a stream
that ends without a `done` raises. -/
def llmRequest {σ : Type} (provider : Provider) (hooks : AgentHooks σ)
    (messages : List Message) (s : σ) :
    LoopEvent × σ × Except Err AssistantMessage :=
  match hooks.onTextDelta with
  | some f =>
    (.llmStream messages,
      match provider.stream messages with
      | .error e => (s, .error e)
      | .ok events =>
        match processStream f events s none with
        | (s1, some response) => (s1, .ok response)
        | (s1, none) => (s1, .error (.error (lit "Stream ended without a final message"))))
  | none => (.llmComplete messages, (s, provider.complete messages))

/-- The tool-dispatch phase of loop.ts lines 117–137: for each tool call
in order, fire `onToolStart`, execute the tool, offer the result to
`onToolEnd` (adopting a returned replacement — the source accepts any
returned value whose `role` is "toolResult", which in this typed embedding
is every returned value), and push the result message.  Returns the new
state, the new message list, the append events of this phase, and whether
a hook threw. -/
def processToolCalls {σ : Type} (tools : List Tool) (context : ToolContext)
    (hooks : AgentHooks σ) :
    List ToolCall → σ → List Message → σ × List Message × List LoopEvent × Except Err Unit
  | [], s, messages => (s, messages, [], .ok ())
  | toolCall :: rest, s, messages =>
    match runHook1 hooks.onToolStart toolCall s with
    | (s1, .error e) => (s1, messages, [], .error e)
    | (s1, .ok ()) =>
      let executed := executeTool toolCall tools context
      match (match hooks.onToolEnd with
             | none => (s1, Except.ok none)
             | some f => f toolCall executed s1) with
      | (s2, .error e) => (s2, messages, [], .error e)
      | (s2, .ok hookResult) =>
        let toolResult := hookResult.getD executed
        match processToolCalls tools context hooks rest s2
            (messages ++ [.toolResult toolResult]) with
        | (s3, messages3, events3, r) =>
          (s3, messages3, .appendedToolResult toolResult :: events3, r)

/-- The turn loop of loop.ts lines 78–140 (inside the try), with fuel
standing in for the unbounded `while (true)`.  Returns the outcome, the
final hook state, the final message list and the event trace. -/
def loopTurns {σ : Type} (tools : List Tool) (provider : Provider)
    (context : ToolContext) (hooks : AgentHooks σ) :
    Nat → σ → List Message → Nat → LoopOutcome × σ × List Message × List LoopEvent
  | 0, s, messages, _ => (.outOfFuel, s, messages, [])
  | fuel + 1, s, messages, turns =>
    let turns1 := turns + 1
    match runHook1 hooks.onLlmStart messages s with
    | (s1, .error e) => (.err e, s1, messages, [])
    | (s1, .ok ()) =>
      match llmRequest provider hooks messages s1 with
      | (ev, s2, .error e) => (.err e, s2, messages, [ev])
      | (ev, s2, .ok response) =>
        match runHook1 hooks.onLlmEnd response s2 with
        | (s3, .error e) => (.err e, s3, messages, [ev])
        | (s3, .ok ()) =>
          let messages1 := messages ++ [.assistant response]
          let toolCalls := response.content.filterMap
            (fun block => match block with
              | .toolCall tc => some tc
              | .text _ => none)
          match toolCalls with
          | [] =>
            match runHook1 hooks.onLoopEnd turns1 s3 with
            | (s4, .error e) =>
              (.err e, s4, messages1, [ev, .appendedAssistant response])
            | (s4, .ok ()) =>
              (.ok response, s4, messages1, [ev, .appendedAssistant response])
          | _ =>
            match processToolCalls tools context hooks toolCalls s3 messages1 with
            | (s4, messages2, toolEvents, .error e) =>
              (.err e, s4, messages2, ev :: .appendedAssistant response :: toolEvents)
            | (s4, messages2, toolEvents, .ok ()) =>
              match (match hooks.onTurnEnd with
                     | none => (s4, Except.ok messages2)
                     | some f => f messages2 s4) with
              | (s5, .error e) =>
                (.err e, s5, messages2, ev :: .appendedAssistant response :: toolEvents)
              | (s5, .ok messages3) =>
                match loopTurns tools provider context hooks fuel s5 messages3 turns1 with
                | (outcome, s6, messages4, events4) =>
                  (outcome, s6, messages4,
                    ev :: .appendedAssistant response :: toolEvents ++ events4)

/-- loop.ts `runAgentLoop`: fire `onLoopStart` (outside the try — a throw
there skips `onError`), run the turn loop, and on a thrown error fire
`onError` and rethrow it; an error thrown by `onError` itself propagates
in its place. -/
def runAgentLoop {σ : Type} (fuel : Nat) (messages : List Message) (tools : List Tool)
    (provider : Provider) (context : ToolContext) (hooks : AgentHooks σ) (s : σ) :
    LoopOutcome × σ × List Message × List LoopEvent :=
  match runHook0 hooks.onLoopStart s with
  | (s1, .error e) => (.err e, s1, messages, [])
  | (s1, .ok ()) =>
    match loopTurns tools provider context hooks fuel s1 messages 0 with
    | (.err e, s2, messages2, events2) =>
      match runHook1 hooks.onError e s2 with
      | (s3, .ok ()) => (.err e, s3, messages2, events2)
      | (s3, .error e2) => (.err e2, s3, messages2, events2)
    | other => other

/-! ## Worker control (hooks.ts `WorkerControl`, `createWorkerControlHooks`) -/

/-- The worker control handle: an abort flag and a FIFO steer queue. -/
structure WorkerControl where
  aborted : Bool
  steerQueue : List Str
deriving DecidableEq, Repr

def WorkerControl.abort (c : WorkerControl) : WorkerControl :=
  { c with aborted := true }

def WorkerControl.steer (c : WorkerControl) (message : Str) : WorkerControl :=
  { c with steerQueue := c.steerQueue ++ [message] }

/-- The `while ((msg = control.consumeSteer()) !== undefined)` drain loop of
the worker-control `onTurnEnd`: shift each queued steer and push it as a
user message. -/
def drainSteerGo : List Str → List Message → List Message
  | [], messages => messages
  | m :: rest, messages =>
    drainSteerGo rest (messages ++ [.user (lit "[Steer] " ++ m)])

/-- hooks.ts `createWorkerControlHooks`: `onToolEnd` throws `AbortError`
when the abort flag is set, otherwise returns the result unchanged;
`onTurnEnd` drains the steer queue into the message list. -/
def createWorkerControlHooks (taskId : Str) : AgentHooks WorkerControl :=
  { onToolEnd := some (fun _call result s =>
      if s.aborted then (s, .error (.abortError taskId)) else (s, .ok (some result)))
    onTurnEnd := some (fun messages s =>
      ({ s with steerQueue := [] }, .ok (drainSteerGo s.steerQueue messages))) }

/-! ## The frontmatter scanner (scanner.ts `parseFrontmatter`) -/

/-- The whitespace class of JS `String.prototype.trim` (the characters that
occur in this development). -/
def jsWhitespace (c : Char) : Bool :=
  c == ' ' || c == '\t' || c == '\n' || c == '\r' || c == '\x0b' || c == '\x0c'

/-- JS `s.trim()`. -/
def jsTrim (s : Str) : Str :=
  ((s.dropWhile jsWhitespace).reverse.dropWhile jsWhitespace).reverse

/-- JS `s.split(/\r?\n/)` (accumulator holds the current line reversed). -/
def splitLinesGo (current : Str) : Str → List Str
  | [] => [current.reverse]
  | '\r' :: '\n' :: rest => current.reverse :: splitLinesGo [] rest
  | '\n' :: rest => current.reverse :: splitLinesGo [] rest
  | c :: rest => splitLinesGo (c :: current) rest

def splitLines (s : Str) : List Str := splitLinesGo [] s

/-- First index `≥ i` at which `pat` occurs in the remaining list (the scan
of JS `indexOf`); `none` for JS's `-1`. -/
def findFrom (pat : Str) : Str → Nat → Option Nat
  | [], _ => none
  | c :: rest, i =>
    if pat.isPrefixOf (c :: rest) then some i else findFrom pat rest (i + 1)

/-- JS `s.indexOf(pat, start)` for nonempty `pat`; `none` for `-1`. -/
def indexOfFrom (s pat : Str) (start : Nat) : Option Nat :=
  findFrom pat (s.drop start) start

/-- A parsed frontmatter value.  The scanner produces booleans, numbers,
strings and flat string arrays; a numeric literal is kept verbatim (JS
stores `Number(valueStr)` and re-renders it on writeback, which agrees
with the literal for the canonical forms; no numeric field occurs in the
task flows proved here). -/
inductive FMValue where
  | bool (b : Bool)
  | num (literal : Str)
  | str (s : Str)
  | arr (items : List Str)
deriving DecidableEq, Repr

def isHexDigit (c : Char) : Bool :=
  c.isDigit || ('a' ≤ c && c ≤ 'f') || ('A' ≤ c && c ≤ 'F')

def decDigits (s : Str) : Bool := !s.isEmpty && s.all Char.isDigit

/-- The optional exponent tail of a JS decimal literal. -/
def isExpPart (s : Str) : Bool :=
  match s with
  | [] => true
  | c :: rest =>
    if c == 'e' || c == 'E' then
      match rest with
      | '+' :: ds => decDigits ds
      | '-' :: ds => decDigits ds
      | ds => decDigits ds
    else false

/-- A JS decimal numeric body: `digits [. digits] [exp]` or `. digits [exp]`. -/
def isDecimalBody (s : Str) : Bool :=
  let intPart := s.takeWhile Char.isDigit
  let rest := s.dropWhile Char.isDigit
  match intPart, rest with
  | [], '.' :: frac =>
    decDigits (frac.takeWhile Char.isDigit) && isExpPart (frac.dropWhile Char.isDigit)
  | [], _ => false
  | _, '.' :: frac => isExpPart (frac.dropWhile Char.isDigit)
  | _, r => isExpPart r

/-- Whether JS `Number(s)` is not NaN, for a trimmed nonempty `s`
(the scanner's `!isNaN(Number(valueStr))` test). -/
def jsIsNumeric (s : Str) : Bool :=
  let body := fun (t : Str) => isDecimalBody t || t == lit "Infinity"
  match s with
  | '+' :: rest => body rest
  | '-' :: rest => body rest
  | '0' :: 'x' :: ds => !ds.isEmpty && ds.all isHexDigit
  | '0' :: 'X' :: ds => !ds.isEmpty && ds.all isHexDigit
  | '0' :: 'b' :: ds => !ds.isEmpty && ds.all (fun c => c == '0' || c == '1')
  | '0' :: 'B' :: ds => !ds.isEmpty && ds.all (fun c => c == '0' || c == '1')
  | '0' :: 'o' :: ds => !ds.isEmpty && ds.all (fun c => '0' ≤ c && c ≤ '7')
  | '0' :: 'O' :: ds => !ds.isEmpty && ds.all (fun c => '0' ≤ c && c ≤ '7')
  | t => body t

/-- Strip a matching pair of surrounding quotes, as the scanner's
`startsWith/endsWith` + `slice(1, -1)` does (a lone quote character also
passes the test and yields the empty string, exactly as in JS). -/
def stripQuotesIf (s : Str) : Str :=
  let stripped := fun (q : Char) =>
    s.head? == some q && s.getLast? == some q
  if stripped '"' || stripped '\'' then (s.drop 1).dropLast else s

/-- Whether the string both starts and ends with the quote character. -/
def isQuoted (s : Str) : Bool :=
  (s.head? == some '"' && s.getLast? == some '"') ||
    (s.head? == some '\'' && s.getLast? == some '\'')

/-- One item of an inline array: trim, then strip quotes if present. -/
def parseArrayItem (v : Str) : Str :=
  let vTrim := jsTrim v
  if isQuoted vTrim then (vTrim.drop 1).dropLast else vTrim

/-- The value grammar of scanner.ts lines 126–154: `true`/`false`, a
number, an inline `[a, b, c]` array, a quoted string, or a bare string. -/
def parseFMValue (valueStr : Str) : FMValue :=
  if valueStr == lit "true" then .bool true
  else if valueStr == lit "false" then .bool false
  else if jsIsNumeric valueStr && !valueStr.isEmpty then .num valueStr
  else if valueStr.head? == some '[' && valueStr.getLast? == some ']' then
    let inner := (valueStr.drop 1).dropLast
    if (jsTrim inner).isEmpty then .arr []
    else .arr ((inner.splitOn ',').map parseArrayItem)
  else if isQuoted valueStr then .str ((valueStr.drop 1).dropLast)
  else .str valueStr

/-- Assignment `frontmatter[key] = value` on a JS object: replace the value
in place if the key exists, else append (insertion order preserved). -/
def fmSet : List (Str × FMValue) → Str → FMValue → List (Str × FMValue)
  | [], k, v => [(k, v)]
  | (k0, v0) :: rest, k, v =>
    if k0 == k then (k0, v) :: rest else (k0, v0) :: fmSet rest k v

/-- One line of the frontmatter block: skip blanks and `#` comments, split
at the first colon, trim, parse the value. -/
def parseFMLine (fm : List (Str × FMValue)) (line : Str) : List (Str × FMValue) :=
  let trimmed := jsTrim line
  if trimmed.isEmpty || trimmed.head? == some '#' then fm
  else
    match trimmed.findIdx? (· == ':') with
    | none => fm
    | some colonIndex =>
      let key := jsTrim (trimmed.take colonIndex)
      let valueStr := jsTrim (trimmed.drop (colonIndex + 1))
      fmSet fm key (parseFMValue valueStr)

/-- scanner.ts `parseFrontmatter`: frontmatter between `---` delimiters at
the start of the content, plus the trimmed body. -/
def parseFrontmatter (content : Str) : List (Str × FMValue) × Str :=
  if (lit "---\n").isPrefixOf content || (lit "---\r\n").isPrefixOf content then
    match indexOfFrom content (lit "\n---") 4 with
    | some endDelimIndex =>
      let rawFrontmatter := (content.take endDelimIndex).drop 4
      let body := jsTrim (content.drop (endDelimIndex + 5))
      ((splitLines rawFrontmatter).foldl parseFMLine [], body)
    | none => ([], content)
  else ([], content)

/-! ## Task persistence (lib/task.ts) -/

/-- JS truthiness of a frontmatter field (`!frontmatter.started` tests):
absent is falsy; a string is truthy iff nonempty; a number is truthy iff
not zero and not NaN; an array is always truthy. -/
def decimalMantissaZero (s : Str) : Bool :=
  let mantissa := s.takeWhile (fun x => x ≠ 'e' && x ≠ 'E')
  !mantissa.isEmpty && mantissa.all (fun x => x == '0' || x == '.')

def numLiteralIsZero (l : Str) : Bool :=
  let noSign := match l with
    | '+' :: rest => rest
    | '-' :: rest => rest
    | t => t
  match noSign with
  | '0' :: c :: ds =>
    if c == 'x' || c == 'X' || c == 'b' || c == 'B' || c == 'o' || c == 'O' then
      ds.all (· == '0')
    else decimalMantissaZero noSign
  | _ => decimalMantissaZero noSign

def jsTruthy : Option FMValue → Bool
  | none => false
  | some (.bool b) => b
  | some (.str s) => !s.isEmpty
  | some (.num l) => !(numLiteralIsZero l)
  | some (.arr _) => true

/-- `value.replace(/"/g, '\\"')` of the writeback. -/
def escapeQuotes (s : Str) : Str :=
  s.foldr (fun c acc => if c == '"' then '\\' :: '"' :: acc else c :: acc) []

/-- The writeback rendering of one frontmatter value (task.ts lines
127–141): arrays bracketed and comma-joined, strings requoted with inner
quotes escaped, other values emitted bare.  (The `null` branch of the
source is unreachable here: the parser never produces a JS `null`.) -/
def renderFMValue : FMValue → Str
  | .arr items => lit "[" ++ List.intercalate (lit ", ") items ++ lit "]"
  | .str s => lit "\"" ++ escapeQuotes s ++ lit "\""
  | .bool b => if b then lit "true" else lit "false"
  | .num l => l

/-- The reconstructed `task.md` content of task.ts `updateTaskStatus`. -/
def renderFrontmatter (fm : List (Str × FMValue)) (body : Str) : Str :=
  (fm.foldl (fun acc kv => acc ++ kv.1 ++ lit ": " ++ renderFMValue kv.2 ++ lit "\n")
    (lit "---\n")) ++ lit "---\n\n" ++ body

/-- task.ts `updateTaskStatus`, as a pure function from the old `task.md`
content (and the current timestamp) to the new content: set `status`, set
`started` on entering running when `started` is falsy, set `completed` on
entering a terminal status when `completed` is falsy, and write back. -/
def updateTaskStatusContent (content : Str) (status : Str) (now : Str) : Str :=
  let parsed := parseFrontmatter content
  let fm1 := fmSet parsed.1 (lit "status") (.str status)
  let fm2 :=
    if status == lit "running" && !(jsTruthy (fm1.lookup (lit "started"))) then
      fmSet fm1 (lit "started") (.str now)
    else fm1
  let fm3 :=
    if (status == lit "completed" || status == lit "failed" || status == lit "aborted")
        && !(jsTruthy (fm2.lookup (lit "completed"))) then
      fmSet fm2 (lit "completed") (.str now)
    else fm2
  renderFrontmatter fm3 parsed.2

/-- The `task.md` content written by task.ts `createTask` (lines 55–67):
frontmatter with `status: pending`, `started: null`, `completed: null`,
then the instructions. -/
def createTaskContent (name description instructions : Str) (model : Option Str)
    (tags : List Str) (id now : Str) : Str :=
  let tagsStr :=
    if tags.length > 0 then lit "[" ++ List.intercalate (lit ", ") tags ++ lit "]"
    else lit "[]"
  let modelStr := match model with
    | some m => lit "\nmodel: " ++ m
    | none => []
  lit "---\nid: " ++ id ++
    lit "\nname: \"" ++ escapeQuotes name ++
    lit "\"\ndescription: \"" ++ escapeQuotes description ++
    lit "\"\nstatus: pending\ncreated: " ++ now ++
    lit "\nstarted: null\ncompleted: null" ++ modelStr ++
    lit "\ntags: " ++ tagsStr ++ lit "\n---\n\n" ++ instructions ++ lit "\n"

/-! ## The worker driver (runtime/worker.ts `runWorker`) -/

structure WorkerResult where
  taskId : Str
  status : Str
  result : Option Str
  error : Option Str
deriving DecidableEq, Repr

/-- The observable outcome of one `runWorker` call: the returned value,
the content written to `result.md` (if any), and the `updateTaskStatus`
calls in order.  `workerResult = none` only when the loop embedding ran
out of fuel. -/
structure WorkerRun where
  workerResult : Option WorkerResult
  resultMd : Option Str
  statusUpdates : List Str
deriving DecidableEq, Repr

/-- JS `String(value)` on a parsed frontmatter value. -/
def fmValueToString : FMValue → Str
  | .str s => s
  | .bool b => if b then lit "true" else lit "false"
  | .num l => l
  | .arr items => List.intercalate (lit ",") items

/-- `String(frontmatter.k)`; JS renders a missing property as "undefined". -/
def fmStringAt (fm : List (Str × FMValue)) (k : Str) : Str :=
  match fm.lookup k with
  | some v => fmValueToString v
  | none => lit "undefined"

/-- worker.ts `runWorker`: parse `task.md`, mark the task running, run the
agent loop in a context scoped to the task directory, and on return or
exception write `result.md` and the terminal status.  The system prompt is
built externally and passed through; it does not affect the embedding. -/
def runWorker {σ : Type} (taskContent : Str) (fuel : Nat) (tools : List Tool)
    (provider : Provider) (baseContext : ToolContext) (hooks : AgentHooks σ) (s : σ)
    (taskDir : Str) : WorkerRun :=
  let parsed := parseFrontmatter taskContent
  let taskId := fmStringAt parsed.1 (lit "id")
  let instructions := parsed.2
  let workerContext : ToolContext :=
    { baseContext with cwd := taskDir, writeRoot := some taskDir }
  match runAgentLoop fuel [.user instructions] tools provider workerContext hooks s with
  | (.ok response, _, _, _) =>
    let resultText := response.content.foldl
      (fun acc block => match block with
        | .text t => acc ++ t
        | .toolCall _ => acc) []
    { workerResult := some ⟨taskId, lit "completed", some resultText, none⟩
      resultMd := some resultText
      statusUpdates := [lit "running", lit "completed"] }
  | (.err e, _, _, _) =>
    { workerResult := some ⟨taskId, lit "failed", none, some e.message⟩
      resultMd := some (lit "Error: " ++ e.message)
      statusUpdates := [lit "running", lit "failed"] }
  | (.outOfFuel, _, _, _) =>
    { workerResult := none, resultMd := none, statusUpdates := [lit "running"] }

/-! ## The compaction adapter (hooks/compaction.ts) -/

structure CompactionConfig where
  contextWindow : ℚ
  triggerRatio : ℚ
  preserveRatio : ℚ
  charsPerToken : Nat
deriving DecidableEq, Repr

def DEFAULT_CONFIG : CompactionConfig :=
  { contextWindow := 200000, triggerRatio := 3/4, preserveRatio := 1/4, charsPerToken := 4 }

/-- `JSON.stringify` escaping of the characters that occur here. -/
def jsonEscape (s : Str) : Str :=
  s.foldr (fun c acc =>
    if c == '"' then '\\' :: '"' :: acc
    else if c == '\\' then '\\' :: '\\' :: acc
    else c :: acc) []

/-- `JSON.stringify(block.arguments)` for the embedded string-map arguments. -/
def jsonStringifyArgs (args : Args) : Str :=
  lit "\x7b" ++
    List.intercalate (lit ",")
      (args.map (fun kv => lit "\"" ++ jsonEscape kv.1 ++ lit "\":\"" ++ jsonEscape kv.2 ++ lit "\"")) ++
    lit "\x7d"

/-- The character count of one message in compaction.ts `estimateTokens`:
user content length; for assistant blocks, text length or serialized
arguments length plus tool-name length; tool-result content length. -/
def messageChars (m : Message) : Nat :=
  match m with
  | .user content => content.length
  | .assistant am =>
    am.content.foldl (fun acc block =>
      acc + match block with
        | .text t => t.length
        | .toolCall tc => (jsonStringifyArgs tc.arguments).length + tc.name.length) 0
  | .toolResult r => r.content.length

/-- `Math.ceil(a / b)` on naturals (b > 0; JS would give Infinity at b = 0,
theorems about the estimator assume a positive chars-per-token). -/
def natCeilDiv (a b : Nat) : Nat := (a + b - 1) / b

/-- compaction.ts `estimateTokens`. -/
def estimateTokens (messages : List Message) (charsPerToken : Nat) : Nat :=
  natCeilDiv (messages.foldl (fun acc m => acc + messageChars m) 0) charsPerToken

/-- UTF-16 code-unit lexicographic order of JS default array sort. -/
def strLt : Str → Str → Bool
  | [], [] => false
  | [], _ :: _ => true
  | _ :: _, [] => false
  | a :: as, b :: bs =>
    if a.val < b.val then true else if b.val < a.val then false else strLt as bs

def insertSorted (x : Str) : List Str → List Str
  | [] => [x]
  | y :: ys => if strLt x y then x :: y :: ys else y :: insertSorted x ys

def sortStr (xs : List Str) : List Str := xs.foldl (fun acc x => insertSorted x acc) []

/-- `Set.add` keeping insertion order. -/
def insertUnique (xs : List Str) (x : Str) : List Str :=
  if xs.contains x then xs else xs ++ [x]

/-- compaction.ts `extractFileOps`: the sorted de-duplicated `path`
arguments of `read_file`/`load` calls and of `write_file` calls. -/
def extractFileOps (messages : List Message) : List Str × List Str :=
  let step := fun (acc : List Str × List Str) (m : Message) =>
    match m with
    | .assistant am =>
      am.content.foldl (fun acc2 block =>
        match block with
        | .toolCall tc =>
          let acc3 :=
            if tc.name == lit "read_file" || tc.name == lit "load" then
              match tc.arguments.lookup (lit "path") with
              | some p => (insertUnique acc2.1 p, acc2.2)
              | none => acc2
            else acc2
          if tc.name == lit "write_file" then
            match tc.arguments.lookup (lit "path") with
            | some p => (acc3.1, insertUnique acc3.2 p)
            | none => acc3
          else acc3
        | .text _ => acc2) acc
    | _ => acc
  let sets := messages.foldl step ([], [])
  (sortStr sets.1, sortStr sets.2)

/-- `JSON.stringify` of an assistant content block. -/
def jsonStringifyBlock : ContentBlock → Str
  | .text t => lit "\x7b\"type\":\"text\",\"text\":\"" ++ jsonEscape t ++ lit "\"\x7d"
  | .toolCall tc =>
    lit "\x7b\"type\":\"toolCall\",\"id\":\"" ++ jsonEscape tc.id ++
      lit "\",\"name\":\"" ++ jsonEscape tc.name ++
      lit "\",\"arguments\":" ++ jsonStringifyArgs tc.arguments ++ lit "\x7d"

def jsonStringifyContent (blocks : List ContentBlock) : Str :=
  lit "[" ++ List.intercalate (lit ",") (blocks.map jsonStringifyBlock) ++ lit "]"

/-- The transcript serialisation of compaction.ts lines 105–110. -/
def conversationText (messages : List Message) : Str :=
  List.intercalate (lit "\n\n")
    (messages.map (fun m =>
      match m with
      | .user c => lit "User: " ++ c
      | .assistant am => lit "Assistant: " ++ jsonStringifyContent am.content
      | .toolResult r => lit "Tool Result (" ++ r.toolCallId ++ lit "): " ++ r.content))

def freshPromptText (conversText : Str) : Str :=
  lit "You are a helpful assistant maintaining a long-running conversation history.\nPlease summarize the following conversation:\n\n" ++
    conversText ++
    lit "\n\nStructure the summary as follows:\n1. Goal: The overall objective.\n2. Key Decisions: Important choices made.\n3. Context: Current state and key information.\n\nKeep it concise but informative."

def updatePromptText (existingSummary conversText : Str) : Str :=
  lit "You are a helpful assistant maintaining a long-running conversation history.\nThe following is the previous summary of the conversation:\n\n" ++
    existingSummary ++
    lit "\n\nAnd here is the new conversation that happened since then:\n\n" ++
    conversText ++
    lit "\n\nPlease update the summary to include the new events, maintaining the structure:\n1. Goal: The overall objective.\n2. Key Decisions: Important choices made.\n3. Context: Current state and key information.\n\nKeep it concise but informative."

/-- The backward walk of compaction.ts lines 76–83, on the reversed
message list: how many most-recent messages fit the preserve budget,
accumulating per-message token estimates and stopping at the first
message that would exceed it. -/
def preservedCountAux (cpt : Nat) (budget : ℚ) : List Message → ℚ → Nat
  | [], _ => 0
  | m :: rest, current =>
    let msgTokens : ℚ := (estimateTokens [m] cpt : ℚ)
    if current + msgTokens > budget then 0
    else 1 + preservedCountAux cpt budget rest (current + msgTokens)

/-- The archive branch of compaction.ts `compactMessages` (lines 88–173),
parameterized by the selected cut index: slice off the recent suffix,
recognise an existing summary at the head, extract file operations, build
the summarization prompt, call the provider, and return the new message
list (summary message followed by the retained suffix).  A provider
failure surfaces as `.error` (caught by the hook wrapper); an empty
response content models the thrown `TypeError` of
`response.content[0].type`. -/
def compactAt (messages : List Message) (provider : Provider)
    (config : CompactionConfig) (cutIndex : Nat) : Except Err (List Message) :=
  let msgsToSummarize := messages.take cutIndex
  let recentMessages := messages.drop cutIndex
  let existing :=
    match msgsToSummarize with
    | .user c :: rest =>
      if (lit "## Previous Context").isPrefixOf c then (some c, rest)
      else (none, msgsToSummarize)
    | _ => (none, msgsToSummarize)
  let ops := extractFileOps existing.2
  let conversText := conversationText existing.2
  let prompt :=
    match existing.1 with
    | some es => updatePromptText es conversText
    | none => freshPromptText conversText
  match provider.complete [.user prompt] with
  | .error e => .error e
  | .ok response =>
    match response.content with
    | [] => .error (.error (lit "TypeError: response.content[0] is undefined"))
    | firstBlock :: _ =>
      let newSummary :=
        match firstBlock with
        | .text t => t
        | .toolCall _ => lit "Error: Could not generate summary."
      let finalContent :=
        lit "## Previous Context\n\n" ++ newSummary ++
          (if ops.1.length > 0 || ops.2.length > 0 then
            lit "\n\n## Touched Files (Archived)\n" ++
              (if ops.1.length > 0 then
                lit "Read: " ++ List.intercalate (lit ", ") ops.1 ++ lit "\n"
              else []) ++
              (if ops.2.length > 0 then
                lit "Modified: " ++ List.intercalate (lit ", ") ops.2 ++ lit "\n"
              else [])
          else [])
      .ok (.user finalContent :: recentMessages)

/-- compaction.ts `compactMessages`, as a function from the message list
to the new message list (the in-place `splice` becomes the returned
list): return unchanged below the trigger threshold, select the cut index
by the backward walk, return unchanged when it is zero, otherwise archive
through `compactAt`. -/
def compactMessages (messages : List Message) (provider : Provider)
    (config : CompactionConfig) : Except Err (List Message) :=
  let totalTokens := estimateTokens messages config.charsPerToken
  let threshold := config.contextWindow * config.triggerRatio
  if (totalTokens : ℚ) < threshold then .ok messages
  else
    let preserveTokens := config.contextWindow * config.preserveRatio
    let cutIndex :=
      messages.length - preservedCountAux config.charsPerToken preserveTokens messages.reverse 0
    if cutIndex = 0 then .ok messages
    else compactAt messages provider config cutIndex

/-- `compactMessages` with its local bindings substituted, for rewriting. -/
theorem compactMessages_unfold (messages : List Message) (provider : Provider)
    (config : CompactionConfig) :
    compactMessages messages provider config =
      if (estimateTokens messages config.charsPerToken : ℚ) <
          config.contextWindow * config.triggerRatio then .ok messages
      else if messages.length - preservedCountAux config.charsPerToken
          (config.contextWindow * config.preserveRatio) messages.reverse 0 = 0 then
        .ok messages
      else
        compactAt messages provider config
          (messages.length - preservedCountAux config.charsPerToken
            (config.contextWindow * config.preserveRatio) messages.reverse 0) := rfl

/-- compaction.ts `createCompactionHooks`: an `onTurnEnd` hook that
compacts, swallowing (logging) any error. -/
def createCompactionHooks {σ : Type} (provider : Provider) (config : CompactionConfig) :
    AgentHooks σ :=
  { onTurnEnd := some (fun messages s =>
      match compactMessages messages provider config with
      | .ok newMessages => (s, .ok newMessages)
      | .error _ => (s, .ok messages)) }

/-- Modelled from claim C7's wording, for comparison with the source's
`estimateTokens`: the estimate as the claim describes it — "summing user
content lengths, assistant text/tool-call-argument lengths, and
tool-result content lengths" — which omits the tool-call name length that
the source adds. -/
def specMessageChars (m : Message) : Nat :=
  match m with
  | .user content => content.length
  | .assistant am =>
    am.content.foldl (fun acc block =>
      acc + match block with
        | .text t => t.length
        | .toolCall tc => (jsonStringifyArgs tc.arguments).length) 0
  | .toolResult r => r.content.length

def specEstimateTokens (messages : List Message) (charsPerToken : Nat) : Nat :=
  natCeilDiv (messages.foldl (fun acc m => acc + specMessageChars m) 0) charsPerToken

/-! ## The write_file tool (tools/write-file.ts) -/

/-- Split an (absolute) POSIX path into components at the separator. -/
def normalizeStack : List Str → List Str → List Str
  | stack, [] => stack.reverse
  | stack, comp :: rest =>
    if comp == [] || comp == lit "." then normalizeStack stack rest
    else if comp == lit ".." then normalizeStack (stack.drop 1) rest
    else normalizeStack (comp :: stack) rest

/-- POSIX normalisation of an absolute path: resolve `.`/`..`, collapse
separators, drop any trailing separator. -/
def normalizeAbs (p : Str) : Str :=
  lit "/" ++ List.intercalate (lit "/") (normalizeStack [] (p.splitOn '/'))

/-- Node `path.resolve(cwd, p)` for an absolute `cwd` (the only case the
runtime produces: worker contexts carry absolute task directories). -/
def pathResolve (cwd p : Str) : Str :=
  if p.head? == some '/' then normalizeAbs p else normalizeAbs (cwd ++ lit "/" ++ p)

/-- The filesystem seen by the tool: path to content.  `fsWrite` is
`fs.writeFile` (the `mkdir -p` has no observable effect in this model). -/
def fsWrite : List (Str × Str) → Str → Str → List (Str × Str)
  | [], p, c => [(p, c)]
  | (p0, c0) :: rest, p, c =>
    if p0 == p then (p0, c) :: rest else (p0, c0) :: fsWrite rest p c

structure WriteFileArgs where
  path : Str
  content : Str
deriving DecidableEq, Repr

/-- write-file.ts `writeFileTool.execute`: resolve the path against the
context cwd; when a write root is set, refuse any resolved path that is
neither the root itself nor strictly under it (`root + sep` prefix);
otherwise write the file. -/
def writeFileExecute (args : WriteFileArgs) (context : ToolContext)
    (fs : List (Str × Str)) : ToolResult × List (Str × Str) :=
  let fullPath := pathResolve context.cwd args.path
  match context.writeRoot with
  | some wr =>
    let resolvedRoot := normalizeAbs wr
    if !((resolvedRoot ++ lit "/").isPrefixOf fullPath) && fullPath ≠ resolvedRoot then
      ({ content := lit "Write denied: path " ++ fullPath ++
          lit " is outside allowed directory " ++ resolvedRoot, isError := true }, fs)
    else
      ({ content := lit "Successfully wrote to " ++ fullPath, isError := false },
        fsWrite fs fullPath args.content)
  | none =>
    ({ content := lit "Successfully wrote to " ++ fullPath, isError := false },
      fsWrite fs fullPath args.content)

/-! ## Observation predicates used by the theorems -/

/-- `pat` occurs in `s` at position `i`. -/
def occursAt (pat s : Str) (i : Nat) : Prop := (s.drop i).take pat.length = pat

/-- Every replacement returned by the `onToolEnd` hook keeps the
`toolCallId` of the result it replaces (true of every hook set in the
repository; the worker-control hook returns the result itself). -/
def PreservesToolCallId {σ : Type} (hooks : AgentHooks σ) : Prop :=
  ∀ f call result s s1 rep, hooks.onToolEnd = some f →
    f call result s = (s1, .ok (some rep)) → rep.toolCallId = result.toolCallId

/-- The request kinds of the provider calls in a loop trace: `true` for a
streamed request, `false` for a blocking one. -/
def llmCallKinds (events : List LoopEvent) : List Bool :=
  events.filterMap (fun ev => match ev with
    | .llmComplete _ => some false
    | .llmStream _ => some true
    | _ => none)

/-- The nonempty text fragments of a stream's `text_delta` events (the
loop checks the fragment's truthiness before routing it). -/
def streamDeltaTexts (events : List StreamEvent) : List Str :=
  events.filterMap (fun e => match e with
    | .textDelta t => if t.isEmpty then none else some t
    | _ => none)

/-- The messages of a stream's `done` events. -/
def streamDones (events : List StreamEvent) : List AssistantMessage :=
  events.filterMap (fun e => match e with
    | .done m => some m
    | _ => none)

/-- "Lies outside the write root", exactly the guard of write-file.ts:
the resolved path is neither the resolved root itself nor strictly under
it (`root + path.sep` prefix). -/
def outsideWriteRoot (fullPath root : Str) : Prop :=
  ¬ ((root ++ lit "/") <+: fullPath) ∧ fullPath ≠ root

/-! ## Helper lemmas -/

theorem truncateOutput_eq_of_le {content : Str} (h : content.length ≤ 32000) :
    truncateOutput content = content := by
  unfold truncateOutput
  rw [if_neg]
  omega

theorem truncateOutput_eq_of_gt {content : Str} (h : 32000 < content.length) :
    truncateOutput content =
      content.take 24000 ++ truncMarker (content.length - 30000) ++
        content.drop (content.length - 6000) := by
  unfold truncateOutput
  rw [if_pos]
  omega

theorem truncateOutput_length_of_gt {content : Str} (h : 32000 < content.length) :
    (truncateOutput content).length =
      30000 + (truncMarker (content.length - 30000)).length := by
  rw [truncateOutput_eq_of_gt h]
  simp only [List.length_append, List.length_take, List.length_drop]
  omega

theorem truncateOutput_head_of_gt {content : Str} (h : 32000 < content.length) :
    content.take 24000 <+: truncateOutput content := by
  rw [truncateOutput_eq_of_gt h, List.append_assoc]
  exact List.prefix_append _ _

theorem truncateOutput_tail_of_gt {content : Str} (h : 32000 < content.length) :
    content.drop (content.length - 6000) <:+ truncateOutput content := by
  rw [truncateOutput_eq_of_gt h]
  exact List.suffix_append _ _

theorem truncateOutput_marker_occursAt {content : Str} (h : 32000 < content.length) :
    occursAt (truncMarker (content.length - 30000)) (truncateOutput content) 24000 := by
  rw [occursAt, truncateOutput_eq_of_gt h, List.append_assoc]
  have hlen : (content.take 24000).length = 24000 := by
    rw [List.length_take]
    omega
  have hdrop := List.drop_left (content.take 24000)
    (truncMarker (content.length - 30000) ++ content.drop (content.length - 6000))
  rw [hlen] at hdrop
  rw [hdrop, List.take_left]

theorem occursAt_zero_of_prefix {pat s : Str} (h : pat <+: s) : occursAt pat s 0 := by
  obtain ⟨t, rfl⟩ := h
  rw [occursAt, List.drop_zero, List.take_left]

theorem prefix_take_of_prefix {pat s : Str} {n : Nat} (h : pat <+: s)
    (hn : pat.length ≤ n) : pat <+: s.take n := by
  obtain ⟨t, rfl⟩ := h
  rw [List.take_append_eq_append_take, List.take_of_length_le hn]
  exact List.prefix_append _ _

/-! ## Claim C1 — the truncation law -/

/-- C1 (as amended): every tool-result message produced by `executeTool`
carries `truncateOutput` of the raw result content; a raw content of at
most 32,000 characters is kept unchanged; a longer one is replaced by a
string of length exactly 30,000 plus the marker length that begins with
the raw content's first 24,000 characters, ends with its last 6,000, and
contains the marker `\n... [N chars truncated] ...\n` (N = original
length − 30,000) at position 24,000. -/
theorem C1_truncation_of_tool_results (toolCall : ToolCall) (tools : List Tool)
    (context : ToolContext) (content : Str) :
    (executeTool toolCall tools context).content =
      truncateOutput (executeToolRaw toolCall tools context).1 ∧
    (content.length ≤ 32000 → truncateOutput content = content) ∧
    (32000 < content.length →
      (truncateOutput content).length =
          30000 + (truncMarker (content.length - 30000)).length ∧
        content.take 24000 <+: truncateOutput content ∧
        content.drop (content.length - 6000) <:+ truncateOutput content ∧
        occursAt (truncMarker (content.length - 30000)) (truncateOutput content) 24000) :=
  ⟨rfl, fun h => truncateOutput_eq_of_le h,
    fun h => ⟨truncateOutput_length_of_gt h, truncateOutput_head_of_gt h,
      truncateOutput_tail_of_gt h, truncateOutput_marker_occursAt h⟩⟩

theorem C1_truncation_of_tool_results_witness :
    truncateOutput (lit "abc") = lit "abc" ∧
    (truncateOutput (List.replicate 33000 'a')).length = 30032 := by
  refine ⟨(C1_truncation_of_tool_results ⟨[], [], []⟩ [] ⟨[], [], none⟩ (lit "abc")).2.1
    (by decide), ?_⟩
  have h : (32000 : Nat) < (List.replicate 33000 'a').length := by
    rw [List.length_replicate]
    omega
  have := ((C1_truncation_of_tool_results ⟨[], [], []⟩ [] ⟨[], [], none⟩
    (List.replicate 33000 'a')).2.2 h).1
  rw [this, List.length_replicate]
  decide

/-- C1 as frozen is false on the code in two points, at explicit inputs:
(1) a raw content of exactly 32,000 characters is appended unchanged, so
its length exceeds 30,000 plus the marker length (32,000 > 30,032);
(2) for a long content that itself begins with the marker text, the
truncated result contains the marker at two positions (0 and 24,000), not
exactly once. -/
theorem C1_truncation_claim_counterexample :
    ¬ ((truncateOutput (List.replicate 32000 'a')).length ≤
        30000 + (truncMarker ((List.replicate 32000 'a' : Str).length - 30000)).length) ∧
    (occursAt (truncMarker ((truncMarker 3000 ++ List.replicate 32968 'a' : Str).length - 30000))
        (truncateOutput (truncMarker 3000 ++ List.replicate 32968 'a')) 0 ∧
      occursAt (truncMarker ((truncMarker 3000 ++ List.replicate 32968 'a' : Str).length - 30000))
        (truncateOutput (truncMarker 3000 ++ List.replicate 32968 'a')) 24000 ∧
      (0 : Nat) ≠ 24000) := by
  have hmlen : (truncMarker 3000).length = 32 := by decide
  have hBlen : (truncMarker 3000 ++ List.replicate 32968 'a' : Str).length = 33000 := by
    rw [List.length_append, List.length_replicate, hmlen]
  have hBgt : 32000 < (truncMarker 3000 ++ List.replicate 32968 'a' : Str).length := by
    omega
  have hN : (truncMarker 3000 ++ List.replicate 32968 'a' : Str).length - 30000 = 3000 := by
    omega
  refine ⟨?_, ?_, ?_, by omega⟩
  · have hA : (List.replicate 32000 'a' : Str).length = 32000 := List.length_replicate ..
    rw [truncateOutput_eq_of_le (le_of_eq hA), hA]
    have : (truncMarker 2000).length = 32 := by decide
    rw [this]
    omega
  · rw [hN]
    refine occursAt_zero_of_prefix ?_
    have h1 : truncMarker 3000 <+:
        (truncMarker 3000 ++ List.replicate 32968 'a' : Str).take 24000 :=
      prefix_take_of_prefix (List.prefix_append _ _) (by omega)
    exact h1.trans (truncateOutput_head_of_gt hBgt)
  · rw [hN]
    have := truncateOutput_marker_occursAt hBgt
    rwa [hN] at this

/-! ## Claim C2 — tool-call dispatch -/

/-- The id of the result the dispatch loop appends for `call`: the
executed result's id is `call.id`; a hook replacement may rename it. -/
theorem processToolCalls_ok_structure {σ : Type} (tools : List Tool) (context : ToolContext)
    (hooks : AgentHooks σ) :
    ∀ (toolCalls : List ToolCall) (s : σ) (messages : List Message)
      (s1 : σ) (messages1 : List Message) (events1 : List LoopEvent),
      processToolCalls tools context hooks toolCalls s messages =
        (s1, messages1, events1, .ok ()) →
      ∃ results : List ToolResultMessage,
        messages1 = messages ++ results.map Message.toolResult ∧
        events1 = results.map LoopEvent.appendedToolResult ∧
        results.length = toolCalls.length ∧
        (PreservesToolCallId hooks →
          results.map (fun r => r.toolCallId) = toolCalls.map (fun tc => tc.id)) := by
  intro toolCalls
  induction toolCalls with
  | nil =>
    intro s messages s1 messages1 events1 h
    simp only [processToolCalls, Prod.mk.injEq] at h
    exact ⟨[], by simp [← h.2.1, ← h.2.2.1]⟩
  | cons call rest ih =>
    intro s messages s1 messages1 events1 h
    rw [processToolCalls] at h
    rcases hst : runHook1 hooks.onToolStart call s with ⟨sA, rA⟩
    rw [hst] at h
    cases rA with
    | error e => simp at h
    | ok _ =>
      have step : ∀ (sB : σ) (hookResult : Option ToolResultMessage),
          (match hooks.onToolEnd with
            | none => (sA, Except.ok none)
            | some f => f call (executeTool call tools context) sA) =
            (sB, Except.ok hookResult) →
          (hookResult.getD (executeTool call tools context)).toolCallId = call.id ∨
            (∃ f rep, hooks.onToolEnd = some f ∧ hookResult = some rep ∧
              f call (executeTool call tools context) sA = (sB, Except.ok (some rep))) := by
        intro sB hookResult hte
        cases hoe : hooks.onToolEnd with
        | none =>
          rw [hoe] at hte
          obtain ⟨rfl, hr⟩ := Prod.mk.injEq .. ▸ hte
          cases hr
          left
          rfl
        | some f =>
          rw [hoe] at hte
          cases hookResult with
          | none =>
            left
            rfl
          | some rep => exact Or.inr ⟨f, rep, rfl, rfl, hte⟩
      rcases hte : (match hooks.onToolEnd with
        | none => (sA, Except.ok none)
        | some f => f call (executeTool call tools context) sA) with ⟨sB, rB⟩
      simp only [hte] at h
      cases rB with
      | error e => simp at h
      | ok hookResult =>
        rcases hrec : processToolCalls tools context hooks rest sB
            (messages ++ [.toolResult (hookResult.getD (executeTool call tools context))]) with
          ⟨sC, messagesC, eventsC, rC⟩
        simp only [hrec] at h
        simp only [Prod.mk.injEq] at h
        obtain ⟨rfl, rfl, rfl, hrc⟩ := h
        cases rC with
        | error e => cases hrc
        | ok u =>
          obtain ⟨restResults, hmsg, hev, hlen, hids⟩ :=
            ih sB (messages ++ [.toolResult (hookResult.getD (executeTool call tools context))])
              _ _ _ hrec
          refine ⟨hookResult.getD (executeTool call tools context) :: restResults,
            ?_, ?_, ?_, ?_⟩
          · rw [hmsg]
            simp
          · rw [hev]
            simp
          · simp [hlen]
          · intro hp
            have hid1 :
                (hookResult.getD (executeTool call tools context)).toolCallId = call.id := by
              rcases step sB hookResult hte with h1 | ⟨f, rep, hoe, hrep, hf⟩
              · exact h1
              · subst hrep
                have := hp f call (executeTool call tools context) sA sB rep hoe hf
                simpa [executeTool] using this
            simp only [List.map_cons, hid1, hids hp]

theorem countP_eq_one_of_nodup_mem {α : Type} [DecidableEq α] {l : List α} {a : α}
    (hn : l.Nodup) (ha : a ∈ l) : l.countP (fun x => decide (x = a)) = 1 := by
  induction l with
  | nil => cases ha
  | cons b bs ih =>
    rw [List.nodup_cons] at hn
    rw [List.countP_cons]
    rcases List.mem_cons.mp ha with rfl | hmem
    · have hz : bs.countP (fun x => decide (x = a)) = 0 := by
        rw [List.countP_eq_zero]
        intro x hx
        simp only [decide_eq_true_eq]
        exact fun hxa => hn.1 (hxa ▸ hx)
      simp [hz]
    · have hb : b ≠ a := fun hba => hn.1 (hba ▸ hmem)
      simp [ih hn.2 hmem, hb]

/-- C2 (as amended): (1) a successful tool-dispatch phase appends exactly
one tool-result message per tool-call block of the assistant message, in
block order; when the `onToolEnd` hooks preserve result ids (the loop's
own results always carry the call's id) the appended ids match the block
ids positionally, and with distinct block ids each block has exactly one
appended result bearing its id.  (2) The loop performs all these appends
— and the whole turn's trace — before the next turn (and hence the next
provider call) starts. -/
theorem C2_tool_dispatch {σ : Type} (tools : List Tool) (context : ToolContext)
    (hooks : AgentHooks σ) :
    (∀ (toolCalls : List ToolCall) (s : σ) (messages : List Message)
       (s1 : σ) (messages1 : List Message) (events1 : List LoopEvent),
      processToolCalls tools context hooks toolCalls s messages =
        (s1, messages1, events1, .ok ()) →
      PreservesToolCallId hooks →
      (toolCalls.map (fun tc => tc.id)).Nodup →
      ∃ results : List ToolResultMessage,
        messages1 = messages ++ results.map Message.toolResult ∧
        results.map (fun r => r.toolCallId) = toolCalls.map (fun tc => tc.id) ∧
        ∀ tc ∈ toolCalls,
          (results.filter (fun r => decide (r.toolCallId = tc.id))).length = 1) ∧
    (∀ (provider : Provider) (fuel turns : Nat) (s sA sB sC sD sE : σ)
       (messages messages2 messages3 : List Message) (response : AssistantMessage)
       (ev : LoopEvent) (toolEvents : List LoopEvent),
      runHook1 hooks.onLlmStart messages s = (sA, .ok ()) →
      llmRequest provider hooks messages sA = (ev, sB, .ok response) →
      runHook1 hooks.onLlmEnd response sB = (sC, .ok ()) →
      response.content.filterMap (fun block => match block with
        | .toolCall tc => some tc
        | .text _ => none) ≠ [] →
      processToolCalls tools context hooks
        (response.content.filterMap (fun block => match block with
          | .toolCall tc => some tc
          | .text _ => none)) sC (messages ++ [.assistant response]) =
        (sD, messages2, toolEvents, .ok ()) →
      (match hooks.onTurnEnd with
        | none => (sD, Except.ok messages2)
        | some f => f messages2 sD) = (sE, .ok messages3) →
      loopTurns tools provider context hooks (fuel + 1) s messages turns =
        ((loopTurns tools provider context hooks fuel sE messages3 (turns + 1)).1,
         (loopTurns tools provider context hooks fuel sE messages3 (turns + 1)).2.1,
         (loopTurns tools provider context hooks fuel sE messages3 (turns + 1)).2.2.1,
         ev :: .appendedAssistant response :: toolEvents ++
           (loopTurns tools provider context hooks fuel sE messages3 (turns + 1)).2.2.2)) := by
  constructor
  · intro toolCalls s messages s1 messages1 events1 h hp hnodup
    obtain ⟨results, hmsg, _, _, hids⟩ :=
      processToolCalls_ok_structure tools context hooks toolCalls s messages s1
        messages1 events1 h
    refine ⟨results, hmsg, hids hp, ?_⟩
    intro tc htc
    rw [← List.countP_eq_length_filter]
    have hm : results.countP (fun r => decide (r.toolCallId = tc.id)) =
        (results.map (fun r => r.toolCallId)).countP (fun x => decide (x = tc.id)) := by
      rw [List.countP_map]
      rfl
    rw [hm, hids hp]
    exact countP_eq_one_of_nodup_mem hnodup (List.mem_map_of_mem _ htc)
  · intro provider fuel turns s sA sB sC sD sE messages messages2 messages3 response ev
      toolEvents h1 h2 h3 hne h5 h6
    rcases hcalls : response.content.filterMap (fun block => match block with
      | .toolCall tc => some tc
      | .text _ => none) with _ | ⟨tc0, restCalls⟩
    · exact absurd hcalls hne
    · rw [hcalls] at h5
      rcases hrec : loopTurns tools provider context hooks fuel sE messages3 (turns + 1) with
        ⟨outcome, s6, messages4, events4⟩
      rw [loopTurns]
      simp only [h1, h2, h3, hcalls, h5, h6, hrec]

theorem C2_tool_dispatch_witness :
    ∃ results : List ToolResultMessage,
      [Message.toolResult ⟨lit "1", truncateOutput (lit "Tool not found"), true⟩] =
        [] ++ results.map Message.toolResult ∧
      results.map (fun r => r.toolCallId) =
        ([⟨lit "1", lit "mock", []⟩] : List ToolCall).map (fun tc => tc.id) ∧
      ∀ tc ∈ ([⟨lit "1", lit "mock", []⟩] : List ToolCall),
        (results.filter (fun r => decide (r.toolCallId = tc.id))).length = 1 :=
  (C2_tool_dispatch (σ := Unit) [] ⟨[], [], none⟩ {}).1
    [⟨lit "1", lit "mock", []⟩] () [] ()
    [Message.toolResult ⟨lit "1", truncateOutput (lit "Tool not found"), true⟩]
    [.appendedToolResult ⟨lit "1", truncateOutput (lit "Tool not found"), true⟩]
    rfl
    (by intro f call result s s1 rep hf; cases hf)
    (by decide)

/-- C2 as frozen is false on the code: an `onToolEnd` hook may replace the
result with one bearing a different `toolCallId`, and the loop appends the
replacement, so no appended tool-result matches the block's id.  Concrete
run: one tool-call block with id "1", a hook renaming the result id to
"other". -/
theorem C2_tool_dispatch_counterexample :
    processToolCalls [] ⟨[], [], none⟩
        ({ onToolEnd := some (fun _call result s =>
            (s, .ok (some { result with toolCallId := lit "other" }))) } : AgentHooks Unit)
        [⟨lit "1", lit "mock", []⟩] () [] =
      ((), [Message.toolResult ⟨lit "other", lit "Tool not found", true⟩],
        [LoopEvent.appendedToolResult ⟨lit "other", lit "Tool not found", true⟩],
        .ok ()) ∧
    (([(⟨lit "other", lit "Tool not found", true⟩ : ToolResultMessage)].filter
        (fun r => decide (r.toolCallId = lit "1"))).length = 0) := by
  constructor
  · rfl
  · decide

/-! ## Claim C3 — started/completed timestamps -/

/-- C3: the code violates the claim.  On a task file freshly written by
`createTask` (`started: null`, `completed: null`), the scanner parses the
literal `null` as the truthy string "null", so `updateTaskStatus`'s
`!frontmatter.started` / `!frontmatter.completed` guards never fire: after
the first transition into running, `started` still holds "null" rather
than the timestamp, and after the first transition into a terminal
status, `completed` still holds "null". -/
theorem C3_task_timestamps_code_bug :
    (parseFrontmatter (updateTaskStatusContent
        (createTaskContent (lit "Demo") (lit "d") (lit "Do it") none []
          (lit "t_001") (lit "2025-01-01T00:00:00.000Z"))
        (lit "running") (lit "2025-01-01T01:00:00.000Z"))).1.lookup (lit "started") =
      some (.str (lit "null")) ∧
    (parseFrontmatter (updateTaskStatusContent
        (createTaskContent (lit "Demo") (lit "d") (lit "Do it") none []
          (lit "t_001") (lit "2025-01-01T00:00:00.000Z"))
        (lit "running") (lit "2025-01-01T01:00:00.000Z"))).1.lookup (lit "status") =
      some (.str (lit "running")) ∧
    (parseFrontmatter (updateTaskStatusContent (updateTaskStatusContent
        (createTaskContent (lit "Demo") (lit "d") (lit "Do it") none []
          (lit "t_001") (lit "2025-01-01T00:00:00.000Z"))
        (lit "running") (lit "2025-01-01T01:00:00.000Z"))
        (lit "completed") (lit "2025-01-01T02:00:00.000Z"))).1.lookup (lit "completed") =
      some (.str (lit "null")) ∧
    (lit "null" : Str) ≠ lit "2025-01-01T01:00:00.000Z" := by
  refine ⟨?_, ?_, ?_, by decide⟩ <;> rfl

/-! ## Claim C4 — compaction when nothing fits the preserve budget -/

theorem preservedCountAux_eq_zero_of_last_exceeds {cpt : Nat} {budget : ℚ}
    {messages : List Message} {last : Message} (hlast : messages.getLast? = some last)
    (hexceed : budget < (estimateTokens [last] cpt : ℚ)) :
    preservedCountAux cpt budget messages.reverse 0 = 0 := by
  obtain ⟨init, rfl⟩ := List.getLast?_eq_some_iff.mp hlast
  rw [List.reverse_append, List.reverse_singleton, List.singleton_append,
    preservedCountAux]
  rw [if_pos]
  rw [zero_add]
  exact hexceed

/-- C4 (as amended): when the backward walk can preserve no messages (the
most recent message alone exceeds the preserve budget), the cut index
stays at the end of the list, so every message — the latest included — is
archived into the summary: provided the summarization call succeeds, the
compacted history is the single summary message (a user message starting
with "## Previous Context"); the latest message is not retained. -/
theorem C4_compaction_cut_with_empty_preserve (messages : List Message)
    (provider : Provider) (config : CompactionConfig) (last : Message)
    (hlast : messages.getLast? = some last)
    (htrig : ¬ ((estimateTokens messages config.charsPerToken : ℚ) <
      config.contextWindow * config.triggerRatio))
    (hexceed : config.contextWindow * config.preserveRatio <
      (estimateTokens [last] config.charsPerToken : ℚ))
    (hprov : ∀ msgs, ∃ resp, provider.complete msgs = Except.ok resp ∧ resp.content ≠ []) :
    ∃ c : Str, compactMessages messages provider config = .ok [Message.user c] ∧
      lit "## Previous Context" <+: c := by
  have hne : messages ≠ [] := by
    intro h
    rw [h] at hlast
    cases hlast
  have hzero := preservedCountAux_eq_zero_of_last_exceeds hlast hexceed
  rw [compactMessages_unfold, if_neg htrig, hzero, Nat.sub_zero]
  rw [if_neg (by
    intro h
    exact hne (List.length_eq_zero.mp h))]
  rw [compactAt]
  rcases hmatch : (match messages.take messages.length with
    | Message.user c :: rest =>
      if (lit "## Previous Context").isPrefixOf c then (some c, rest)
      else (none, messages.take messages.length)
    | _ => (none, messages.take messages.length)) with ⟨ex1, ex2⟩
  simp only [hmatch]
  cases ex1 with
  | none =>
    obtain ⟨resp, hresp, hcontent⟩ :=
      hprov [Message.user (freshPromptText (conversationText ex2))]
    simp only [hresp]
    rcases hrc : resp.content with _ | ⟨firstBlock, restBlocks⟩
    · exact absurd hrc hcontent
    · simp only [hrc, List.drop_length]
      refine ⟨_, rfl, ?_⟩
      rw [List.append_assoc]
      exact List.prefix_append _ _
  | some es =>
    obtain ⟨resp, hresp, hcontent⟩ :=
      hprov [Message.user (updatePromptText es (conversationText ex2))]
    simp only [hresp]
    rcases hrc : resp.content with _ | ⟨firstBlock, restBlocks⟩
    · exact absurd hrc hcontent
    · simp only [hrc, List.drop_length]
      refine ⟨_, rfl, ?_⟩
      rw [List.append_assoc]
      exact List.prefix_append _ _

theorem C4_compaction_cut_with_empty_preserve_witness :
    ∃ c : Str,
      compactMessages [Message.user (List.replicate 60 'A')]
          { complete := fun _ => .ok ⟨[.text (lit "S")]⟩, stream := fun _ => .ok [] }
          { contextWindow := 100, triggerRatio := 1/2, preserveRatio := 1/5,
            charsPerToken := 1 } = .ok [Message.user c] ∧
      lit "## Previous Context" <+: c := by
  refine C4_compaction_cut_with_empty_preserve _ _ _ (Message.user (List.replicate 60 'A'))
    rfl ?_ ?_ (fun msgs => ⟨⟨[.text (lit "S")]⟩, rfl, by decide⟩)
  · have h : estimateTokens [Message.user (List.replicate 60 'A')] 1 = 60 := by decide
    rw [h]
    norm_num
  · have h : estimateTokens [Message.user (List.replicate 60 'A')] 1 = 60 := by decide
    rw [h]
    norm_num

/-- C4 as frozen is false on the code: with a preserve budget of 20 tokens
and a single 60-token message, no message fits the budget, and the latest
message is archived into the summary rather than kept — the compacted
history is the summary message alone, which differs from the latest
message. -/
theorem C4_compaction_claim_counterexample :
    compactMessages [Message.user (List.replicate 60 'A')]
        { complete := fun _ => .ok ⟨[.text (lit "S")]⟩, stream := fun _ => .ok [] }
        { contextWindow := 100, triggerRatio := 1/2, preserveRatio := 1/5,
          charsPerToken := 1 } =
      .ok [Message.user (lit "## Previous Context\n\nS")] ∧
    ¬ ([Message.user (lit "## Previous Context\n\nS")].contains
        (Message.user (List.replicate 60 'A'))) := by
  have hest : estimateTokens [Message.user (List.replicate 60 'A')] 1 = 60 := by decide
  constructor
  · rw [compactMessages]
    rw [if_neg (by
      rw [hest]
      norm_num)]
    have haux : preservedCountAux 1 ((100 : ℚ) * (1/5))
        (([Message.user (List.replicate 60 'A')] : List Message).reverse) 0 = 0 := by
      rw [List.reverse_singleton, preservedCountAux]
      rw [if_pos (by
        rw [hest]
        norm_num)]
    simp only [haux, List.length_singleton, Nat.sub_zero]
    rw [if_neg (by norm_num)]
    rfl
  · decide

/-! ## Claim C5 — onToolEnd chaining in the hook composer and the loop -/

/-- C5: (1) for two combined hook sets both installing `onToolEnd`, the
combined handler runs them in installation order, threading the possibly
replaced result: the second handler receives the first one's replacement
(or the original when the first returned none), and the combined handler
returns the final value.  (2) In the dispatch loop, when the (combined)
`onToolEnd` returns a replacement for the executed result, that
replacement — recognised by being a tool-result message, which in this
typed embedding every returned value is — is exactly the message appended
to the history. -/
theorem C5_onToolEnd_chaining {σ : Type} :
    (∀ (h1 h2 : AgentHooks σ) f1 f2 (call : ToolCall) (r : ToolResultMessage)
       (s s1 s2 : σ) (o1 o2 : Option ToolResultMessage),
      h1.onToolEnd = some f1 → h2.onToolEnd = some f2 →
      f1 call r s = (s1, .ok o1) →
      f2 call (o1.getD r) s1 = (s2, .ok o2) →
      ∃ g, (combineHooks [some h1, some h2]).onToolEnd = some g ∧
        g call r s = (s2, .ok (some (o2.getD (o1.getD r))))) ∧
    (∀ (hooks : AgentHooks σ) g (call : ToolCall) (tools : List Tool)
       (context : ToolContext) (s s1 : σ) (rep : ToolResultMessage)
       (messages : List Message),
      hooks.onToolStart = none → hooks.onToolEnd = some g →
      g call (executeTool call tools context) s = (s1, .ok (some rep)) →
      processToolCalls tools context hooks [call] s messages =
        (s1, messages ++ [.toolResult rep], [.appendedToolResult rep], .ok ())) := by
  constructor
  · intro h1 h2 f1 f2 call r s s1 s2 o1 o2 hf1 hf2 ha hb
    refine ⟨chainToolEnd [f1, f2], ?_, ?_⟩
    · simp [combineHooks, someIfNonempty, List.filterMap_cons, hf1, hf2]
    · simp only [chainToolEnd, ha, hb]
  · intro hooks g call tools context s s1 rep messages hstart hg happ
    rw [processToolCalls]
    simp only [runHook1, hstart, hg, happ, processToolCalls, Option.getD_some]

theorem C5_onToolEnd_chaining_witness :
    (∃ g, (combineHooks [
        some ({ onToolEnd := some (fun _call r s =>
          (s, .ok (some { r with content := lit "one" }))) } : AgentHooks Unit),
        some ({ onToolEnd := some (fun _call r s =>
          (s, .ok (some { r with content := r.content ++ lit "+two" }))) } :
            AgentHooks Unit)]).onToolEnd = some g ∧
      g ⟨lit "1", lit "t", []⟩ ⟨lit "1", lit "orig", false⟩ () =
        ((), .ok (some ⟨lit "1", lit "one+two", false⟩))) ∧
    processToolCalls [] ⟨lit "/w", lit "/tasks", none⟩
        ({ onToolEnd := some (fun _call r s =>
          (s, .ok (some { r with content := lit "replaced" }))) } : AgentHooks Unit)
        [⟨lit "1", lit "mock", []⟩] () [] =
      ((), [] ++ [.toolResult ⟨lit "1", lit "replaced", true⟩],
        [.appendedToolResult ⟨lit "1", lit "replaced", true⟩], .ok ()) := by
  constructor
  · exact C5_onToolEnd_chaining.1 _ _ _ _ ⟨lit "1", lit "t", []⟩ ⟨lit "1", lit "orig", false⟩
      () () () (some ⟨lit "1", lit "one", false⟩) (some ⟨lit "1", lit "one+two", false⟩)
      rfl rfl rfl rfl
  · exact C5_onToolEnd_chaining.2 _ _ ⟨lit "1", lit "mock", []⟩ [] ⟨lit "/w", lit "/tasks", none⟩
      () () ⟨lit "1", lit "replaced", true⟩ [] rfl rfl rfl

/-! ## Claim C6 — onError and rethrow -/

/-- C6 (as amended): for every exception thrown out of the loop body,
`runAgentLoop` invokes the `onError` hook and — provided the handler
returns normally — rethrows the original exception to its caller (the
handler's state effects are kept). -/
theorem C6_onError_rethrow {σ : Type} (fuel : Nat) (messages : List Message)
    (tools : List Tool) (provider : Provider) (context : ToolContext)
    (hooks : AgentHooks σ) (s sA s2 s3 : σ) (e : Err) (messages2 : List Message)
    (events2 : List LoopEvent) (h : Err → σ → σ × Except Err Unit)
    (hstart : runHook0 hooks.onLoopStart s = (sA, .ok ()))
    (hbody : loopTurns tools provider context hooks fuel sA messages 0 =
      (.err e, s2, messages2, events2))
    (herr : hooks.onError = some h)
    (hok : h e s2 = (s3, .ok ())) :
    runAgentLoop fuel messages tools provider context hooks s =
      (.err e, s3, messages2, events2) := by
  rw [runAgentLoop]
  simp only [hstart, hbody, runHook1, herr, hok]

theorem C6_onError_rethrow_witness :
    runAgentLoop 1 [] []
        { complete := fun _ => .error (.error (lit "provider failed")),
          stream := fun _ => .ok [] }
        ⟨lit "/w", lit "/tasks", none⟩
        ({ onError := some (fun _e s => (s, .ok ())) } : AgentHooks Unit) () =
      (.err (.error (lit "provider failed")), (), [], [.llmComplete []]) :=
  C6_onError_rethrow 1 [] []
    { complete := fun _ => .error (.error (lit "provider failed")),
      stream := fun _ => .ok [] }
    ⟨lit "/w", lit "/tasks", none⟩
    ({ onError := some (fun _e s => (s, .ok ())) } : AgentHooks Unit)
    () () () () (.error (lit "provider failed")) [] [.llmComplete []]
    (fun _e s => (s, .ok ())) rfl rfl rfl rfl

/-- C6 as frozen is false on the code: `await hooks?.onError?.(error)` runs
before `throw error`, so an exception thrown by the `onError` handler
propagates out of the loop in place of the original.  Concrete run: the
provider throws "provider failed", the handler throws "handler failed",
and the loop's outcome is the handler's exception. -/
theorem C6_onError_claim_counterexample :
    (runAgentLoop 1 [] []
        { complete := fun _ => .error (.error (lit "provider failed")),
          stream := fun _ => .ok [] }
        ⟨lit "/w", lit "/tasks", none⟩
        ({ onError := some (fun _e s => (s, .error (.error (lit "handler failed")))) } :
          AgentHooks Unit) ()).1 =
      .err (.error (lit "handler failed")) ∧
    Err.error (lit "handler failed") ≠ Err.error (lit "provider failed") := by
  constructor
  · rfl
  · decide

/-! ## Claim C7 — the compaction trigger -/

theorem foldl_add_eq_sum_map (g : Message → Nat) (l : List Message) (a : Nat) :
    l.foldl (fun acc m => acc + g m) a = a + (l.map g).sum := by
  induction l generalizing a with
  | nil => simp
  | cons m rest ih =>
    simp only [List.foldl_cons, List.map_cons, List.sum_cons]
    rw [ih]
    omega

theorem natCeilDiv_le_add (a b c : Nat) (hc : 0 < c) :
    natCeilDiv (a + b) c ≤ natCeilDiv a c + natCeilDiv b c := by
  have ha : a ≤ c * natCeilDiv a c := by
    rw [natCeilDiv]
    rcases Nat.eq_zero_or_pos a with rfl | hpos
    · simp
    · have h1 : a + c - 1 < c * ((a + c - 1) / c + 1) := Nat.lt_mul_div_succ _ hc
      have h2 : c * ((a + c - 1) / c + 1) = c * ((a + c - 1) / c) + c := by ring
      omega
  have hb : b ≤ c * natCeilDiv b c := by
    rw [natCeilDiv]
    rcases Nat.eq_zero_or_pos b with rfl | hpos
    · simp
    · have h1 : b + c - 1 < c * ((b + c - 1) / c + 1) := Nat.lt_mul_div_succ _ hc
      have h2 : c * ((b + c - 1) / c + 1) = c * ((b + c - 1) / c) + c := by ring
      omega
  rw [natCeilDiv]
  have h3 : (natCeilDiv a c + natCeilDiv b c + 1) * c =
      c * natCeilDiv a c + c * natCeilDiv b c + c := by ring
  have hlt : a + b + c - 1 < (natCeilDiv a c + natCeilDiv b c + 1) * c := by
    rw [h3]
    set x := c * natCeilDiv a c with hx
    set y := c * natCeilDiv b c with hy
    omega
  exact Nat.lt_succ_iff.mp ((Nat.div_lt_iff_lt_mul hc).mpr hlt)

/-- The whole-list token estimate is at most the sum of the per-message
estimates (ceiling division is subadditive). -/
theorem estimateTokens_le_sum_map (l : List Message) (cpt : Nat) (hc : 0 < cpt) :
    estimateTokens l cpt ≤ (l.map (fun m => estimateTokens [m] cpt)).sum := by
  induction l with
  | nil =>
    simp only [estimateTokens, List.foldl_nil, List.map_nil, List.sum_nil, natCeilDiv]
    rw [Nat.div_eq_of_lt (by omega)]
  | cons m rest ih =>
    have hsplit : estimateTokens (m :: rest) cpt =
        natCeilDiv (messageChars m + (rest.map messageChars).sum) cpt := by
      rw [estimateTokens, List.foldl_cons, foldl_add_eq_sum_map]
      simp
    have hone : estimateTokens [m] cpt = natCeilDiv (messageChars m) cpt := by
      rw [estimateTokens]
      simp
    have hrest : estimateTokens rest cpt = natCeilDiv ((rest.map messageChars).sum) cpt := by
      rw [estimateTokens, foldl_add_eq_sum_map]
      simp
    rw [hsplit, List.map_cons, List.sum_cons]
    calc natCeilDiv (messageChars m + (rest.map messageChars).sum) cpt
        ≤ natCeilDiv (messageChars m) cpt + natCeilDiv ((rest.map messageChars).sum) cpt :=
          natCeilDiv_le_add _ _ _ hc
      _ = estimateTokens [m] cpt + estimateTokens rest cpt := by rw [hone, hrest]
      _ ≤ estimateTokens [m] cpt + (rest.map (fun x => estimateTokens [x] cpt)).sum :=
          Nat.add_le_add_left ih _

theorem preservedCountAux_le_length (cpt : Nat) (budget : ℚ) :
    ∀ (l : List Message) (current : ℚ), preservedCountAux cpt budget l current ≤ l.length := by
  intro l
  induction l with
  | nil =>
    intro current
    rw [preservedCountAux]
    exact Nat.zero_le _
  | cons m rest ih =>
    intro current
    rw [preservedCountAux]
    by_cases hif : current + (estimateTokens [m] cpt : ℚ) > budget
    · rw [if_pos hif]
      exact Nat.zero_le _
    · rw [if_neg hif]
      simp only [List.length_cons]
      have := ih (current + (estimateTokens [m] cpt : ℚ))
      omega

/-- The walk's invariant: the per-message estimates of the selected
prefix of the reversed list (the retained most-recent messages) fit the
budget. -/
theorem preservedCountAux_sum_le (cpt : Nat) (budget : ℚ) :
    ∀ (l : List Message) (current : ℚ), current ≤ budget →
      current + ((l.take (preservedCountAux cpt budget l current)).map
        (fun m => (estimateTokens [m] cpt : ℚ))).sum ≤ budget := by
  intro l
  induction l with
  | nil =>
    intro current hcur
    rw [preservedCountAux]
    simpa using hcur
  | cons m rest ih =>
    intro current hcur
    rw [preservedCountAux]
    by_cases hif : current + (estimateTokens [m] cpt : ℚ) > budget
    · rw [if_pos hif]
      simpa using hcur
    · rw [if_neg hif]
      have hnext := ih (current + (estimateTokens [m] cpt : ℚ)) (not_lt.mp hif)
      rw [Nat.add_comm 1 (preservedCountAux cpt budget rest
        (current + (estimateTokens [m] cpt : ℚ)))]
      simp only [List.take_succ_cons, List.map_cons, List.sum_cons]
      linarith

theorem reverse_take_reverse (l : List Message) (k : Nat) :
    (l.reverse.take k).reverse = l.drop (l.length - k) := by
  rw [List.reverse_take]
  simp

theorem estimateTokensQ_le_sum (l : List Message) (cpt : Nat) (hc : 0 < cpt) :
    (estimateTokens l cpt : ℚ) ≤
      ((l.map (fun m => (estimateTokens [m] cpt : ℚ))).sum) := by
  have h := estimateTokens_le_sum_map l cpt hc
  calc (estimateTokens l cpt : ℚ)
      ≤ (((l.map (fun m => estimateTokens [m] cpt)).sum : Nat) : ℚ) := by exact_mod_cast h
    _ = ((l.map (fun m => (estimateTokens [m] cpt : ℚ))).sum) := by
        rw [Nat.cast_list_sum, List.map_map]
        rfl

/-- C7 (as amended): with the code's token estimate (which adds the
tool-call name length to the serialized argument length), for every
configuration with a positive chars-per-token, a nonnegative preserve
budget below the trigger threshold (as with the defaults 0.25 < 0.75),
and a summarization provider that answers with at least one content
block: a history estimating below the threshold is returned unchanged by
the compaction hook, and a history at or above it is rewritten so that
the first message is a user message beginning with "## Previous Context"
and the retained suffix of most-recent messages estimates within the
preserve budget; the hook `createCompactionHooks` installs exactly this
rewrite as `onTurnEnd`. -/
theorem C7_compaction_trigger (messages : List Message) (provider : Provider)
    (config : CompactionConfig)
    (hcpt : 0 < config.charsPerToken)
    (hpres0 : 0 ≤ config.contextWindow * config.preserveRatio)
    (hlt : config.contextWindow * config.preserveRatio <
      config.contextWindow * config.triggerRatio)
    (hprov : ∀ msgs, ∃ resp, provider.complete msgs = Except.ok resp ∧ resp.content ≠ []) :
    ((estimateTokens messages config.charsPerToken : ℚ) <
        config.contextWindow * config.triggerRatio →
      compactMessages messages provider config = .ok messages) ∧
    (¬ ((estimateTokens messages config.charsPerToken : ℚ) <
        config.contextWindow * config.triggerRatio) →
      ∃ (c : Str) (rest : List Message),
        compactMessages messages provider config = .ok (Message.user c :: rest) ∧
        lit "## Previous Context" <+: c ∧
        rest <:+ messages ∧
        (estimateTokens rest config.charsPerToken : ℚ) ≤
          config.contextWindow * config.preserveRatio) ∧
    (∀ (s : Unit) (g : List Message → Unit → Unit × Except Err (List Message))
       (l : List Message),
      (createCompactionHooks (σ := Unit) provider config).onTurnEnd = some g →
      compactMessages messages provider config = .ok l →
      g messages s = (s, .ok l)) := by
  refine ⟨?_, ?_, ?_⟩
  · intro hunder
    rw [compactMessages_unfold, if_pos hunder]
  · intro hnot
    set k := preservedCountAux config.charsPerToken
      (config.contextWindow * config.preserveRatio) messages.reverse 0 with hk
    have hsum := preservedCountAux_sum_le config.charsPerToken
      (config.contextWindow * config.preserveRatio) messages.reverse 0 hpres0
    rw [← hk] at hsum
    have hcut : ¬ (messages.length - k = 0) := by
      intro h0
      have hkle : k ≤ messages.reverse.length := by
        rw [hk]
        exact preservedCountAux_le_length _ _ _ _
      have hklen : messages.reverse.length ≤ k := by
        rw [List.length_reverse]
        omega
      have htake : messages.reverse.take k = messages.reverse :=
        List.take_of_length_le hklen
      rw [htake] at hsum
      have hrev : ((messages.reverse.map (fun m =>
          (estimateTokens [m] config.charsPerToken : ℚ))).sum) =
          ((messages.map (fun m => (estimateTokens [m] config.charsPerToken : ℚ))).sum) := by
        rw [List.map_reverse, List.sum_reverse]
      rw [hrev] at hsum
      have hq := estimateTokensQ_le_sum messages config.charsPerToken hcpt
      exact hnot (lt_of_le_of_lt (hq.trans (by linarith)) hlt)
    rw [compactMessages_unfold, if_neg hnot, ← hk, if_neg hcut, compactAt]
    have hrest_bound : (estimateTokens (messages.drop (messages.length - k))
        config.charsPerToken : ℚ) ≤ config.contextWindow * config.preserveRatio := by
      have hdrop : messages.drop (messages.length - k) = (messages.reverse.take k).reverse :=
        (reverse_take_reverse messages k).symm
      rw [hdrop]
      have hq := estimateTokensQ_le_sum ((messages.reverse.take k).reverse)
        config.charsPerToken hcpt
      have hsum2 : (((messages.reverse.take k).reverse.map (fun m =>
          (estimateTokens [m] config.charsPerToken : ℚ))).sum) =
          (((messages.reverse.take k).map (fun m =>
            (estimateTokens [m] config.charsPerToken : ℚ))).sum) := by
        rw [List.map_reverse, List.sum_reverse]
      rw [hsum2] at hq
      linarith
    have hsuffix : messages.drop (messages.length - k) <:+ messages :=
      List.drop_suffix _ _
    rcases hmatch : (match messages.take (messages.length - k) with
      | Message.user c :: rest =>
        if (lit "## Previous Context").isPrefixOf c then (some c, rest)
        else (none, messages.take (messages.length - k))
      | _ => (none, messages.take (messages.length - k))) with ⟨ex1, ex2⟩
    simp only [hmatch]
    cases ex1 with
    | none =>
      obtain ⟨resp, hresp, hcontent⟩ :=
        hprov [Message.user (freshPromptText (conversationText ex2))]
      simp only [hresp]
      rcases hrc : resp.content with _ | ⟨firstBlock, restBlocks⟩
      · exact absurd hrc hcontent
      · simp only [hrc]
        refine ⟨_, _, rfl, ?_, hsuffix, hrest_bound⟩
        rw [List.append_assoc]
        exact List.prefix_append _ _
    | some es =>
      obtain ⟨resp, hresp, hcontent⟩ :=
        hprov [Message.user (updatePromptText es (conversationText ex2))]
      simp only [hresp]
      rcases hrc : resp.content with _ | ⟨firstBlock, restBlocks⟩
      · exact absurd hrc hcontent
      · simp only [hrc]
        refine ⟨_, _, rfl, ?_, hsuffix, hrest_bound⟩
        rw [List.append_assoc]
        exact List.prefix_append _ _
  · intro s g l hg hcompact
    have hg2 : g = fun ms s =>
        match compactMessages ms provider config with
        | .ok newMessages => (s, Except.ok newMessages)
        | .error _ => (s, Except.ok ms) := by
      have h2 := hg
      rw [createCompactionHooks] at h2
      exact (Option.some.inj h2).symm
    rw [hg2]
    simp only [hcompact]

theorem C7_compaction_trigger_witness :
    ∃ (c : Str) (rest : List Message),
      compactMessages
          [Message.user (lit "0123456789"), Message.user (lit "0123456789"),
           Message.user (lit "0123456789"), Message.user (lit "0123456789"),
           Message.user (lit "0123456789"), Message.user (lit "keep me please")]
          { complete := fun _ => .ok ⟨[.text (lit "Summary of 50 chars")]⟩,
            stream := fun _ => .ok [] }
          { contextWindow := 100, triggerRatio := 1/2, preserveRatio := 1/5,
            charsPerToken := 1 } = .ok (Message.user c :: rest) ∧
      lit "## Previous Context" <+: c ∧
      rest <:+ [Message.user (lit "0123456789"), Message.user (lit "0123456789"),
                Message.user (lit "0123456789"), Message.user (lit "0123456789"),
                Message.user (lit "0123456789"), Message.user (lit "keep me please")] ∧
      (estimateTokens rest 1 : ℚ) ≤ 100 * (1/5) := by
  have h := (C7_compaction_trigger
    [Message.user (lit "0123456789"), Message.user (lit "0123456789"),
     Message.user (lit "0123456789"), Message.user (lit "0123456789"),
     Message.user (lit "0123456789"), Message.user (lit "keep me please")]
    { complete := fun _ => .ok ⟨[.text (lit "Summary of 50 chars")]⟩,
      stream := fun _ => .ok [] }
    { contextWindow := 100, triggerRatio := 1/2, preserveRatio := 1/5, charsPerToken := 1 }
    (by decide) (by norm_num) (by norm_num)
    (fun msgs => ⟨⟨[.text (lit "Summary of 50 chars")]⟩, rfl, by decide⟩)).2.1
  have hest : estimateTokens
      [Message.user (lit "0123456789"), Message.user (lit "0123456789"),
       Message.user (lit "0123456789"), Message.user (lit "0123456789"),
       Message.user (lit "0123456789"), Message.user (lit "keep me please")] 1 = 64 := by
    decide
  exact h (by
    rw [hest]
    norm_num)

/-- C7 as frozen is false on the code: the claim's estimate ("user content
lengths, assistant text/tool-call-argument lengths, tool-result content
lengths") omits the tool-call name length that the source's
`estimateTokens` adds, so a history whose claim-estimate is below the
threshold (2 tokens < 50) is nevertheless compacted, because the code's
estimate (62, including a 60-character tool name) reaches the threshold:
the hook does not return it unchanged. -/
theorem C7_compaction_claim_counterexample :
    (specEstimateTokens
        [Message.assistant ⟨[.toolCall ⟨lit "1", List.replicate 60 'x', []⟩]⟩] 1 : ℚ) <
      100 * (1/2) ∧
    compactMessages [Message.assistant ⟨[.toolCall ⟨lit "1", List.replicate 60 'x', []⟩]⟩]
        { complete := fun _ => .ok ⟨[.text (lit "S")]⟩, stream := fun _ => .ok [] }
        { contextWindow := 100, triggerRatio := 1/2, preserveRatio := 1/5,
          charsPerToken := 1 } ≠
      .ok [Message.assistant ⟨[.toolCall ⟨lit "1", List.replicate 60 'x', []⟩]⟩] := by
  have hspec : specEstimateTokens
      [Message.assistant ⟨[.toolCall ⟨lit "1", List.replicate 60 'x', []⟩]⟩] 1 = 2 := by
    decide
  have hest : estimateTokens
      [Message.assistant ⟨[.toolCall ⟨lit "1", List.replicate 60 'x', []⟩]⟩] 1 = 62 := by
    decide
  constructor
  · rw [hspec]
    norm_num
  · have heval : compactMessages
        [Message.assistant ⟨[.toolCall ⟨lit "1", List.replicate 60 'x', []⟩]⟩]
        { complete := fun _ => .ok ⟨[.text (lit "S")]⟩, stream := fun _ => .ok [] }
        { contextWindow := 100, triggerRatio := 1/2, preserveRatio := 1/5,
          charsPerToken := 1 } =
        .ok [Message.user (lit "## Previous Context\n\nS")] := by
      rw [compactMessages_unfold]
      rw [if_neg (by
        rw [hest]
        norm_num)]
      have haux : preservedCountAux 1 ((100 : ℚ) * (1/5))
          (([Message.assistant ⟨[.toolCall ⟨lit "1", List.replicate 60 'x', []⟩]⟩] :
            List Message).reverse) 0 = 0 := by
        rw [List.reverse_singleton, preservedCountAux]
        rw [if_pos (by
          rw [hest]
          norm_num)]
      simp only [haux, List.length_singleton, Nat.sub_zero]
      rw [if_neg (by norm_num)]
      rfl
    rw [heval]
    intro hcontra
    have h2 := Except.ok.inj hcontra
    simp at h2

/-! ## Claim C8 — worker-control abort and the worker driver -/

/-- C8: (1) once the control handle's abort flag is set, the very next
`onToolEnd` invocation of the worker-control hooks raises `AbortError`
with the task id, while with the flag clear it returns the result
unchanged; (2) when the agent loop of a worker ends with that
`AbortError`, the driver catches it, writes
"Error: Task (id) was aborted" to `result.md`, and returns status
"failed" — so `result.md` exists on that terminal path. -/
theorem C8_worker_abort {σ : Type} (taskId : Str) :
    (∀ (call : ToolCall) (result : ToolResultMessage) (q : List Str) f,
      (createWorkerControlHooks taskId).onToolEnd = some f →
      f call result ⟨true, q⟩ = (⟨true, q⟩, .error (.abortError taskId)) ∧
      f call result ⟨false, q⟩ = (⟨false, q⟩, .ok (some result))) ∧
    (∀ (taskContent : Str) (fuel : Nat) (tools : List Tool) (provider : Provider)
       (baseContext : ToolContext) (hooks : AgentHooks σ) (s : σ) (taskDir : Str)
       (s2 : σ) (messages2 : List Message) (events2 : List LoopEvent),
      runAgentLoop fuel [.user (parseFrontmatter taskContent).2] tools provider
          { baseContext with cwd := taskDir, writeRoot := some taskDir } hooks s =
        (.err (.abortError taskId), s2, messages2, events2) →
      runWorker taskContent fuel tools provider baseContext hooks s taskDir =
        { workerResult := some ⟨fmStringAt (parseFrontmatter taskContent).1 (lit "id"),
            lit "failed", none, some (lit "Task " ++ taskId ++ lit " was aborted")⟩,
          resultMd := some (lit "Error: Task " ++ taskId ++ lit " was aborted"),
          statusUpdates := [lit "running", lit "failed"] } ∧
      (runWorker taskContent fuel tools provider baseContext hooks s taskDir).resultMd ≠
        none) := by
  constructor
  · intro call result q f hf
    have hf2 : f = fun _call result s =>
        if s.aborted then (s, .error (.abortError taskId)) else (s, .ok (some result)) :=
      (Option.some.inj hf).symm
    subst hf2
    constructor
    · rfl
    · rfl
  · intro taskContent fuel tools provider baseContext hooks s taskDir s2 messages2
      events2 hloop
    have hpre : (lit "Error: " ++ (lit "Task " ++ taskId ++ lit " was aborted") : Str) =
        lit "Error: Task " ++ taskId ++ lit " was aborted" := by
      rw [show (lit "Error: Task " : Str) = lit "Error: " ++ lit "Task " from by decide]
      simp [List.append_assoc]
    have hrw : runWorker taskContent fuel tools provider baseContext hooks s taskDir =
        { workerResult := some ⟨fmStringAt (parseFrontmatter taskContent).1 (lit "id"),
            lit "failed", none, some (lit "Task " ++ taskId ++ lit " was aborted")⟩,
          resultMd := some (lit "Error: Task " ++ taskId ++ lit " was aborted"),
          statusUpdates := [lit "running", lit "failed"] } := by
      rw [runWorker]
      simp only [hloop, Err.message]
      rw [hpre]
    refine ⟨hrw, ?_⟩
    rw [hrw]
    intro hcontra
    cases hcontra

theorem C8_worker_abort_witness :
    runWorker
        (createTaskContent (lit "Demo") (lit "d") (lit "Do it") none [] (lit "t_001")
          (lit "2025-01-01T00:00:00.000Z")) 5
        [⟨lit "echo", fun a => .ok a, fun _ _ => .ok ⟨lit "ok", false⟩⟩]
        { complete := fun _ => .ok ⟨[.toolCall ⟨lit "1", lit "echo", []⟩]⟩,
          stream := fun _ => .ok [] }
        ⟨lit "/w", lit "/tasks", none⟩ (createWorkerControlHooks (lit "t_001"))
        ⟨true, []⟩ (lit "/tasks/t_001") =
      { workerResult := some ⟨lit "t_001", lit "failed", none,
          some (lit "Task t_001 was aborted")⟩,
        resultMd := some (lit "Error: Task t_001 was aborted"),
        statusUpdates := [lit "running", lit "failed"] } :=
  ((C8_worker_abort (σ := WorkerControl) (lit "t_001")).2
    (createTaskContent (lit "Demo") (lit "d") (lit "Do it") none [] (lit "t_001")
      (lit "2025-01-01T00:00:00.000Z")) 5
    [⟨lit "echo", fun a => .ok a, fun _ _ => .ok ⟨lit "ok", false⟩⟩]
    { complete := fun _ => .ok ⟨[.toolCall ⟨lit "1", lit "echo", []⟩]⟩,
      stream := fun _ => .ok [] }
    ⟨lit "/w", lit "/tasks", none⟩ (createWorkerControlHooks (lit "t_001"))
    ⟨true, []⟩ (lit "/tasks/t_001") _ _ _ rfl).1

/-! ## Claim C9 — streaming vs blocking provider selection -/

theorem llmCallKinds_append (l1 l2 : List LoopEvent) :
    llmCallKinds (l1 ++ l2) = llmCallKinds l1 ++ llmCallKinds l2 := by
  simp [llmCallKinds, List.filterMap_append]

theorem processToolCalls_kinds {σ : Type} (tools : List Tool) (context : ToolContext)
    (hooks : AgentHooks σ) :
    ∀ (toolCalls : List ToolCall) (s : σ) (messages : List Message),
      llmCallKinds (processToolCalls tools context hooks toolCalls s messages).2.2.1 = [] := by
  intro toolCalls
  induction toolCalls with
  | nil =>
    intro s messages
    simp [processToolCalls, llmCallKinds]
  | cons call rest ih =>
    intro s messages
    rw [processToolCalls]
    rcases hst : runHook1 hooks.onToolStart call s with ⟨sA, rA⟩
    cases rA with
    | error e =>
      simp only [hst]
      simp [llmCallKinds]
    | ok u =>
      simp only [hst]
      rcases hte : (match hooks.onToolEnd with
        | none => (sA, Except.ok none)
        | some f => f call (executeTool call tools context) sA) with ⟨sB, rB⟩
      cases rB with
      | error e =>
        simp only [hte]
        simp [llmCallKinds]
      | ok hookResult =>
        simp only [hte]
        rcases hrec : processToolCalls tools context hooks rest sB
            (messages ++ [.toolResult (hookResult.getD (executeTool call tools context))]) with
          ⟨sC, mC, eC, rC⟩
        have hih := ih sB
          (messages ++ [.toolResult (hookResult.getD (executeTool call tools context))])
        rw [hrec] at hih
        simp only [hrec]
        simpa [llmCallKinds] using hih

theorem llmRequest_event {σ : Type} (provider : Provider) (hooks : AgentHooks σ)
    (messages : List Message) (s : σ) :
    (llmRequest provider hooks messages s).1 =
      (if hooks.onTextDelta.isSome then LoopEvent.llmStream messages
       else LoopEvent.llmComplete messages) := by
  rw [llmRequest]
  cases hd : hooks.onTextDelta with
  | none => rfl
  | some f => rfl

theorem llmCallKinds_cons (ev : LoopEvent) (l : List LoopEvent) :
    llmCallKinds (ev :: l) = llmCallKinds [ev] ++ llmCallKinds l := by
  rw [show ev :: l = [ev] ++ l from rfl, llmCallKinds_append]

theorem loopTurns_kinds {σ : Type} (tools : List Tool) (provider : Provider)
    (context : ToolContext) (hooks : AgentHooks σ) :
    ∀ (fuel : Nat) (s : σ) (messages : List Message) (turns : Nat),
      ∀ x ∈ llmCallKinds (loopTurns tools provider context hooks fuel s messages turns).2.2.2,
        x = hooks.onTextDelta.isSome := by
  intro fuel
  induction fuel with
  | zero =>
    intro s messages turns x hx
    simp [loopTurns, llmCallKinds] at hx
  | succ n ih =>
    intro s messages turns x hx
    rw [loopTurns] at hx
    rcases h1 : runHook1 hooks.onLlmStart messages s with ⟨s1, r1⟩
    simp only [h1] at hx
    cases r1 with
    | error e => simp [llmCallKinds] at hx
    | ok u =>
      rcases h2 : llmRequest provider hooks messages s1 with ⟨ev, s2, r2⟩
      simp only [h2] at hx
      have hevk : llmCallKinds [ev] = [hooks.onTextDelta.isSome] := by
        have h3 := llmRequest_event provider hooks messages s1
        rw [h2] at h3
        simp only at h3
        rw [h3]
        cases hd : hooks.onTextDelta with
        | none => simp [llmCallKinds]
        | some f => simp [llmCallKinds]
      have hsingle : ∀ (l : List LoopEvent), llmCallKinds l = [] →
          x ∈ llmCallKinds (ev :: l) → x = hooks.onTextDelta.isSome := by
        intro l hl hmem
        rw [show ev :: l = [ev] ++ l from rfl, llmCallKinds_append, hevk, hl] at hmem
        simpa using hmem
      have haa : ∀ (resp : AssistantMessage), llmCallKinds [.appendedAssistant resp] = [] := by
        intro resp
        simp [llmCallKinds]
      cases r2 with
      | error e =>
        exact hsingle [] (by simp [llmCallKinds]) hx
      | ok response =>
        rcases h4 : runHook1 hooks.onLlmEnd response s2 with ⟨s3, r3⟩
        simp only [h4] at hx
        cases r3 with
        | error e =>
          exact hsingle [] (by simp [llmCallKinds]) hx
        | ok u2 =>
          rcases h5 : response.content.filterMap (fun block => match block with
            | ContentBlock.toolCall tc => some tc
            | ContentBlock.text _ => none) with _ | ⟨tc0, restCalls⟩
          · simp only [h5] at hx
            rcases h6 : runHook1 hooks.onLoopEnd (turns + 1) s3 with ⟨s4, r4⟩
            simp only [h6] at hx
            cases r4 with
            | error e => exact hsingle [.appendedAssistant response] (haa response) hx
            | ok u3 => exact hsingle [.appendedAssistant response] (haa response) hx
          · simp only [h5] at hx
            rcases h7 : processToolCalls tools context hooks (tc0 :: restCalls) s3
                (messages ++ [.assistant response]) with ⟨s4, m2, tev, r4⟩
            simp only [h7] at hx
            have htev : llmCallKinds tev = [] := by
              have h8 := processToolCalls_kinds tools context hooks (tc0 :: restCalls) s3
                (messages ++ [.assistant response])
              rw [h7] at h8
              exact h8
            cases r4 with
            | error e =>
              refine hsingle (.appendedAssistant response :: tev) ?_ hx
              rw [show (LoopEvent.appendedAssistant response :: tev) =
                [LoopEvent.appendedAssistant response] ++ tev from rfl,
                llmCallKinds_append, haa response, htev]
              rfl
            | ok u3 =>
              rcases h9 : (match hooks.onTurnEnd with
                | none => (s4, Except.ok m2)
                | some f => f m2 s4) with ⟨s5, r5⟩
              simp only [h9] at hx
              cases r5 with
              | error e =>
                refine hsingle (.appendedAssistant response :: tev) ?_ hx
                rw [show (LoopEvent.appendedAssistant response :: tev) =
                  [LoopEvent.appendedAssistant response] ++ tev from rfl,
                  llmCallKinds_append, haa response, htev]
                rfl
              | ok messages3 =>
                rcases h10 : loopTurns tools provider context hooks n s5 messages3
                    (turns + 1) with ⟨o, s6, m4, e4⟩
                simp only [h10] at hx
                have hih := ih s5 messages3 (turns + 1)
                rw [h10] at hih
                simp only at hih
                have heq : llmCallKinds (ev :: LoopEvent.appendedAssistant response ::
                    tev ++ e4) = hooks.onTextDelta.isSome :: llmCallKinds e4 := by
                  calc llmCallKinds (ev :: LoopEvent.appendedAssistant response ::
                      tev ++ e4)
                      = llmCallKinds [ev] ++
                          llmCallKinds (LoopEvent.appendedAssistant response ::
                            tev ++ e4) := llmCallKinds_cons _ _
                    _ = llmCallKinds [ev] ++
                          (llmCallKinds [LoopEvent.appendedAssistant response] ++
                            llmCallKinds (tev ++ e4)) :=
                          congrArg (fun z => llmCallKinds [ev] ++ z)
                            (llmCallKinds_cons (LoopEvent.appendedAssistant response)
                              (tev ++ e4))
                    _ = hooks.onTextDelta.isSome :: llmCallKinds e4 := by
                          rw [llmCallKinds_append, hevk, haa response, htev]
                          rfl
                rw [heq] at hx
                rcases List.mem_cons.mp hx with h | h
                · exact h
                · exact hih x h

theorem getLast?_cons_or {α : Type} (l : List α) (a : α) (r : Option α) :
    ((a :: l).getLast?).or r = (l.getLast?).or (some a) := by
  cases l with
  | nil => simp
  | cons b bs =>
    rw [List.getLast?_cons_cons]
    cases hbl : (b :: bs).getLast? with
    | some x => simp
    | none => exact absurd (List.getLast?_eq_none_iff.mp hbl) (by simp)

theorem processStream_spec {σ : Type} (f : Str → σ → σ) :
    ∀ (events : List StreamEvent) (s : σ) (r : Option AssistantMessage),
      processStream f events s r =
        ((streamDeltaTexts events).foldl (fun acc t => f t acc) s,
          ((streamDones events).getLast?).or r) := by
  intro events
  induction events with
  | nil =>
    intro s r
    simp [processStream, streamDeltaTexts, streamDones]
  | cons e rest ih =>
    intro s r
    cases e with
    | textDelta t =>
      rw [processStream, ih]
      by_cases ht : t.isEmpty
      · have ht2 : t = [] := by simpa using ht
        simp [streamDeltaTexts, streamDones, ht, ht2, List.filterMap_cons]
      · have ht2 : ¬ (t = []) := by simpa using ht
        simp [streamDeltaTexts, streamDones, ht, ht2, List.filterMap_cons]
    | done m =>
      rw [processStream, ih]
      simp only [streamDeltaTexts, streamDones, List.filterMap_cons]
      rw [getLast?_cons_or]
    | other =>
      rw [processStream, ih]
      simp [streamDeltaTexts, streamDones, List.filterMap_cons]

theorem runAgentLoop_kinds {σ : Type} (fuel : Nat) (messages : List Message)
    (tools : List Tool) (provider : Provider) (context : ToolContext)
    (hooks : AgentHooks σ) (s : σ) :
    ∀ x ∈ llmCallKinds (runAgentLoop fuel messages tools provider context hooks s).2.2.2,
      x = hooks.onTextDelta.isSome := by
  intro x hx
  rw [runAgentLoop] at hx
  rcases h0 : runHook0 hooks.onLoopStart s with ⟨s1, r0⟩
  simp only [h0] at hx
  cases r0 with
  | error e => simp [llmCallKinds] at hx
  | ok u =>
    rcases hL : loopTurns tools provider context hooks fuel s1 messages 0 with
      ⟨o, s2, m2, e2⟩
    simp only [hL] at hx
    have hk := loopTurns_kinds tools provider context hooks fuel s1 messages 0
    rw [hL] at hk
    simp only at hk
    cases o with
    | ok response => exact hk x hx
    | outOfFuel => exact hk x hx
    | err e =>
      rcases hE : runHook1 hooks.onError e s2 with ⟨s3, r3⟩
      simp only [hE] at hx
      cases r3 with
      | error e2 => exact hk x hx
      | ok u2 => exact hk x hx

/-- C9: if the effective hook set has an `onTextDelta` handler, every
provider request of a loop run is a streaming one; if it has none, every
request is a blocking `complete` call.  Moreover the streaming consumer
routes exactly the nonempty `text_delta` fragments to the handler in
order (folding them through the state) and takes the last `done` event's
message as the turn's assistant message; when a stream succeeds with a
final message, the turn's LLM phase returns exactly that message. -/
theorem C9_streaming_selection {σ : Type} (fuel : Nat) (messages : List Message)
    (tools : List Tool) (provider : Provider) (context : ToolContext)
    (hooks : AgentHooks σ) (s : σ) :
    (hooks.onTextDelta.isSome = true →
      ∀ x ∈ llmCallKinds (runAgentLoop fuel messages tools provider context hooks s).2.2.2,
        x = true) ∧
    (hooks.onTextDelta = none →
      ∀ x ∈ llmCallKinds (runAgentLoop fuel messages tools provider context hooks s).2.2.2,
        x = false) ∧
    (∀ (f : Str → σ → σ) (events : List StreamEvent) (s0 : σ)
       (r : Option AssistantMessage),
      processStream f events s0 r =
        ((streamDeltaTexts events).foldl (fun acc t => f t acc) s0,
          ((streamDones events).getLast?).or r)) ∧
    (∀ (f : Str → σ → σ) (events : List StreamEvent) (s0 s1 : σ)
       (resp : AssistantMessage),
      hooks.onTextDelta = some f →
      provider.stream messages = .ok events →
      processStream f events s0 none = (s1, some resp) →
      llmRequest provider hooks messages s0 = (.llmStream messages, s1, .ok resp)) := by
  refine ⟨?_, ?_, fun f events s0 r => processStream_spec f events s0 r, ?_⟩
  · intro hd x hx
    have := runAgentLoop_kinds fuel messages tools provider context hooks s x hx
    rw [this, hd]
  · intro hd x hx
    have := runAgentLoop_kinds fuel messages tools provider context hooks s x hx
    rw [this, hd]
    rfl
  · intro f events s0 s1 resp hd hstream hproc
    simp only [llmRequest, hd, hstream, hproc]

theorem C9_streaming_selection_witness :
    llmRequest
        { complete := fun _ => .error (.error (lit "not used")),
          stream := fun _ => .ok [.textDelta (lit "hi"),
            .done ⟨[.text (lit "Done")]⟩] }
        ({ onTextDelta := some (fun _t s => s) } : AgentHooks Unit)
        [Message.user (lit "q")] () =
      (.llmStream [Message.user (lit "q")], (), .ok ⟨[.text (lit "Done")]⟩) :=
  (C9_streaming_selection 1 [Message.user (lit "q")] []
    { complete := fun _ => .error (.error (lit "not used")),
      stream := fun _ => .ok [.textDelta (lit "hi"), .done ⟨[.text (lit "Done")]⟩] }
    ⟨lit "/w", lit "/tasks", none⟩
    ({ onTextDelta := some (fun _t s => s) } : AgentHooks Unit) ()).2.2.2
    (fun _t s => s) [.textDelta (lit "hi"), .done ⟨[.text (lit "Done")]⟩] () ()
    ⟨[.text (lit "Done")]⟩ rfl rfl rfl

/-! ## Claim C10 — write-root enforcement -/

/-- C10: with a write root set, a `write_file` call whose requested path,
resolved against the context's cwd, lies outside the write root returns an
error-flagged result and leaves the filesystem unchanged (no file is
written). -/
theorem C10_write_root_enforcement (args : WriteFileArgs) (context : ToolContext)
    (fs : List (Str × Str)) (wr : Str)
    (hwr : context.writeRoot = some wr)
    (houtside : outsideWriteRoot (pathResolve context.cwd args.path) (normalizeAbs wr)) :
    (writeFileExecute args context fs).1.isError = true ∧
    (writeFileExecute args context fs).2 = fs := by
  obtain ⟨hpre, hne⟩ := houtside
  have hcond : (!((normalizeAbs wr ++ lit "/").isPrefixOf
      (pathResolve context.cwd args.path)) &&
      decide (pathResolve context.cwd args.path ≠ normalizeAbs wr)) = true := by
    rw [Bool.and_eq_true, Bool.not_eq_true', decide_eq_true_iff]
    refine ⟨?_, hne⟩
    rw [← Bool.not_eq_true]
    intro hcontra
    exact hpre (List.isPrefixOf_iff_prefix.mp hcontra)
  rw [writeFileExecute]
  simp only [hwr]
  rw [if_pos hcond]
  exact ⟨rfl, rfl⟩

theorem C10_write_root_enforcement_witness :
    (writeFileExecute ⟨lit "../../etc/passwd", lit "x"⟩
        ⟨lit "/tasks/t_001", lit "/tasks", some (lit "/tasks/t_001")⟩ []).1.isError = true ∧
    (writeFileExecute ⟨lit "../../etc/passwd", lit "x"⟩
        ⟨lit "/tasks/t_001", lit "/tasks", some (lit "/tasks/t_001")⟩ []).2 = [] :=
  C10_write_root_enforcement ⟨lit "../../etc/passwd", lit "x"⟩
    ⟨lit "/tasks/t_001", lit "/tasks", some (lit "/tasks/t_001")⟩ [] (lit "/tasks/t_001")
    rfl (by
      unfold outsideWriteRoot
      exact ⟨by decide, by decide⟩)
